import Mathlib

/-!
Shallow embedding of the `elf_loader` crate (an in-memory ELF64 loader for
position-independent executables) and proofs about its parse, load and
relocation phases.

The embedding models the crate as built for `x86_64` with little-endian
native byte order, which is the only fully supported configuration
(`cfg!(target_endian = "little")` and `cfg!(target_arch = "x86_64")` both
hold, all other `cfg!` tests are `false`).

Machine integers are modelled as `Nat` with explicit `% 2 ^ w` at the points
where the source truncates or wraps.  Raw buffers are `List Nat` (one `Nat`
per byte).  Pointer values, which the source inspects only through alignment
checks (`ptr as usize % align`), are passed explicitly as `Nat` address
arguments.  Fallible functions return `Except`, mirroring `Result`.
-/

set_option maxRecDepth 40000
set_option autoImplicit false

namespace ElfLoader

/-- A byte buffer; each element is one byte of the original `[u8]` slice. -/
abbrev Bytes := List Nat

/-- Reads `n` bytes little-endian starting at `off`, as the `transmute`-based
field accesses in `parse.rs` do on a little-endian host.  Out-of-range reads
yield zero; the source never performs them on checked inputs. -/
def readLE (raw : Bytes) (off : Nat) : Nat → Nat
  | 0 => 0
  | n + 1 => raw.getD off 0 + 256 * readLE raw (off + 1) n

/-- Serialises `v` into `n` little-endian bytes, the memory image of an
`n`-byte unaligned integer store. -/
def natToLE : Nat → Nat → Bytes
  | 0, _ => []
  | n + 1, v => v % 256 :: natToLE n (v / 256)

/-- Writes `src` into `mem` starting at byte offset `dst`, modelling
`copy_from_slice` / `write_unaligned`.  The result always has `mem`'s
length: indices past the end of `mem` are discarded (the corresponding
store in the source would be out of bounds, see the analysis of
`apply_rela`). -/
def writeBytes (mem : Bytes) (dst : Nat) (src : Bytes) : Bytes :=
  (List.range mem.length).map fun j =>
    if dst ≤ j ∧ j < dst + src.length then src.getD (j - dst) 0 else mem.getD j 0

/-- Errors of the parse phase (`error.rs`, `ParseElfError`). -/
inductive ParseElfError
  | BadBufferSize | BadBufferAlignment | BufferNotElf | BadHeaderSize
  | NotElf64 | BadEndian | NotPic | BadIsa | BadProgramHeaderSize
  | ProgramHeaderOverflow | BadPhRange | BadVmemRange | PhSmallerThanVmem
  | ExcessiveAlignment | BadEntry
  deriving DecidableEq, Repr

/-- Errors of the load phase (`error.rs`, `LoadElfError`). -/
inductive LoadElfError
  | BadBufferSize | BadBufferAlignment | TooManySegments
  | MultipleDynamicSegments | NoDynamicSegments
  deriving DecidableEq, Repr

/-- Errors of the relocation phase (`error.rs`, `RelocElfError`). -/
inductive RelocElfError
  | BadBaseAddressAlignment | BadDynAlignment | BadRelSize | BadRelaSize
  | BadRelRelaTableRange | BadRelRelaTableAlignment
  | BadRelOffset | BadRelaOffset
  | UnsupportedRelArch | UnsupportedRelaArch | UnsupportedRelaType
  | MemProtectFailed
  deriving DecidableEq, Repr

/-- The ELF file header (`elf.rs`, `ElfFileHeader`, 64 bytes, `repr(C)`). -/
structure ElfFileHeader where
  e_ident     : Bytes
  e_type      : Nat
  e_machine   : Nat
  e_version   : Nat
  e_entry     : Nat
  e_phoff     : Nat
  e_shoff     : Nat
  e_flags     : Nat
  e_ehsize    : Nat
  e_phentsize : Nat
  e_phnum     : Nat
  e_shentsize : Nat
  e_shnum     : Nat
  e_shstrndx  : Nat
  deriving DecidableEq, Repr, Inhabited

/-- Field layout of the `repr(C)` file header as read from the raw buffer
by the `transmute` in `try_load_header`. -/
def ElfFileHeader.fromBytes (raw : Bytes) : ElfFileHeader where
  e_ident     := raw.take 16
  e_type      := readLE raw 16 2
  e_machine   := readLE raw 18 2
  e_version   := readLE raw 20 4
  e_entry     := readLE raw 24 8
  e_phoff     := readLE raw 32 8
  e_shoff     := readLE raw 40 8
  e_flags     := readLE raw 48 4
  e_ehsize    := readLE raw 52 2
  e_phentsize := readLE raw 54 2
  e_phnum     := readLE raw 56 2
  e_shentsize := readLE raw 58 2
  e_shnum     := readLE raw 60 2
  e_shstrndx  := readLE raw 62 2

/-- An ELF program header (`elf.rs`, `ElfProgramHeader`, 56 bytes). -/
structure ElfProgramHeader where
  p_type   : Nat
  p_flags  : Nat
  p_offset : Nat
  p_vaddr  : Nat
  p_paddr  : Nat
  p_filesz : Nat
  p_memsz  : Nat
  p_align  : Nat
  deriving DecidableEq, Repr, Inhabited

/-- Field layout of a `repr(C)` program header located at byte offset `off`. -/
def ElfProgramHeader.fromBytes (raw : Bytes) (off : Nat) : ElfProgramHeader where
  p_type   := readLE raw off 4
  p_flags  := readLE raw (off + 4) 4
  p_offset := readLE raw (off + 8) 8
  p_vaddr  := readLE raw (off + 16) 8
  p_paddr  := readLE raw (off + 24) 8
  p_filesz := readLE raw (off + 32) 8
  p_memsz  := readLE raw (off + 40) 8
  p_align  := readLE raw (off + 48) 8

/-- A dynamic-table entry (`elf.rs`, `ElfDyn`, 16 bytes). -/
structure ElfDyn where
  d_tag : Nat
  d_val : Nat
  deriving DecidableEq, Repr, Inhabited

/-- Reads an `ElfDyn` at byte offset `off` of `mem`. -/
def ElfDyn.fromBytes (mem : Bytes) (off : Nat) : ElfDyn where
  d_tag := readLE mem off 8
  d_val := readLE mem (off + 8) 8

/-- A REL relocation entry (`elf.rs`, `ElfRel`, 16 bytes). -/
structure ElfRel where
  r_offset : Nat
  r_info   : Nat
  deriving DecidableEq, Repr, Inhabited

/-- Reads an `ElfRel` at byte offset `off` of `mem`. -/
def ElfRel.fromBytes (mem : Bytes) (off : Nat) : ElfRel where
  r_offset := readLE mem off 8
  r_info   := readLE mem (off + 8) 8

/-- A RELA relocation entry (`elf.rs`, `ElfRela`, 24 bytes).  `r_addend` is
an `i64` in the source; it is kept here as its 64-bit two's-complement bit
pattern because the only use, `rela.r_addend as u64`, reinterprets exactly
those bits. -/
structure ElfRela where
  r_offset : Nat
  r_info   : Nat
  r_addend : Nat
  deriving DecidableEq, Repr, Inhabited

/-- Reads an `ElfRela` at byte offset `off` of `mem`. -/
def ElfRela.fromBytes (mem : Bytes) (off : Nat) : ElfRela where
  r_offset := readLE mem off 8
  r_info   := readLE mem (off + 8) 8
  r_addend := readLE mem (off + 16) 8

/-- Low 32 bits of `r_info` (`elf.rs`, `r_type`). -/
def r_type (info : Nat) : Nat := info % 2 ^ 32

end ElfLoader

namespace ElfLoader

/-- Result of a successful parse (`lib.rs`, `struct Elf`).  The source's
`program_headers: ProgramHeaders` field holds a slice iterator over the raw
program headers together with the borrowed ELF buffer; both are stored here
directly. -/
structure Elf where
  raw             : Bytes
  program_headers : List ElfProgramHeader
  mem_len         : Nat
  mem_align       : Nat
  entry           : Nat
  deriving DecidableEq, Repr, Inhabited

/-- File-header validation (`parse.rs`, `try_load_header`), for the
little-endian `x86_64` build.  `addr` is the address of `raw`
(`raw.as_ptr() as usize`); `align_of::<ElfFileHeader>()` is 8. -/
def try_load_header (raw : Bytes) (addr : Nat) : Except ParseElfError ElfFileHeader :=
  if raw.length < 64 ∨ raw.length > 2 ^ 32 - 1 then .error .BadBufferSize
  else if addr % 8 ≠ 0 then .error .BadBufferAlignment
  else
    let header := ElfFileHeader.fromBytes raw
    if raw.take 4 ≠ [0x7F, 0x45, 0x4C, 0x46] then .error .BufferNotElf
    else if header.e_ehsize ≠ 64 then .error .BadHeaderSize
    else if header.e_ident.getD 4 0 ≠ 2 then .error .NotElf64
    else if header.e_ident.getD 5 0 ≠ 1 then .error .BadEndian
    else if header.e_type ≠ 3 then .error .NotPic
    else if header.e_machine ≠ 62 then .error .BadIsa
    else .ok header

/-- One iteration of the scan in `parse.rs`, `check_ph_ranges`, carrying the
running `end_offset`, `max_align` and `entry_in_exe` accumulators.
`checked_add` / `checked_mul` on `u64` are modelled by explicit `≥ 2 ^ 64`
overflow tests; `wrapping_add` by `% 2 ^ 64`; the `as u32` cast by
`% 2 ^ 32`. -/
def check_ph_ranges_go (rawLen ent : Nat) :
    List ElfProgramHeader → Nat → Nat → Bool → Except ParseElfError (Nat × Nat)
  | [], endOffset, maxAlign, entryInExe =>
    if ent ≠ 0 ∧ entryInExe = false then .error .BadEntry
    else .ok (endOffset, maxAlign)
  | ph :: rest, endOffset, maxAlign, entryInExe =>
    if ph.p_offset + ph.p_filesz ≥ 2 ^ 64 ∨ ph.p_offset + ph.p_filesz ≥ rawLen then
      .error .BadPhRange
    else if ph.p_vaddr + ph.p_memsz ≥ 2 ^ 64 ∨ ph.p_vaddr + ph.p_memsz > 2 ^ 32 - 1
        ∨ ph.p_memsz > 2 ^ 32 - 1 then
      .error .BadVmemRange
    else if ph.p_memsz < ph.p_filesz then .error .PhSmallerThanVmem
    else
      let entryInExe' :=
        if ent ≠ 0 ∧ ph.p_type = 1 ∧ ph.p_flags % 2 = 1
            ∧ ent ≥ ph.p_vaddr ∧ ent < (ph.p_vaddr + ph.p_memsz) % 2 ^ 64
        then true else entryInExe
      let e := (ph.p_vaddr + ph.p_memsz) % 2 ^ 64 % 2 ^ 32
      if ph.p_align ≤ 2 ^ 32 - 1 then
        check_ph_ranges_go rawLen ent rest
          (if e > endOffset then e else endOffset)
          (if ph.p_align > maxAlign then ph.p_align else maxAlign)
          entryInExe'
      else .error .ExcessiveAlignment

/-- Bounds-check scan over the program headers (`parse.rs`,
`check_ph_ranges`). -/
def check_ph_ranges (hdrs : List ElfProgramHeader) (rawLen ent : Nat) :
    Except ParseElfError (Nat × Nat) :=
  check_ph_ranges_go rawLen ent hdrs 0 1 false

/-- Program-header table validation (`parse.rs`, `try_load_program_headers`).
`addr` is the buffer address, so `addr + e_phoff` is the table's address
(`align_of::<ElfProgramHeader>()` is 8). -/
def try_load_program_headers (hdr : ElfFileHeader) (raw : Bytes) (addr : Nat) :
    Except ParseElfError (Nat × Nat × Nat × List ElfProgramHeader) :=
  if hdr.e_phentsize ≠ 56 then .error .BadProgramHeaderSize
  else if 56 * hdr.e_phnum ≥ 2 ^ 64 ∨ 56 * hdr.e_phnum + hdr.e_phoff ≥ 2 ^ 64
      ∨ 56 * hdr.e_phnum + hdr.e_phoff ≥ raw.length then
    .error .ProgramHeaderOverflow
  else if (addr + hdr.e_phoff) % 8 ≠ 0 then .error .BadBufferAlignment
  else
    let hdrs := (List.range hdr.e_phnum).map fun i =>
      ElfProgramHeader.fromBytes raw (hdr.e_phoff + 56 * i)
    match check_ph_ranges hdrs raw.length hdr.e_entry with
    | .error e => .error e
    | .ok (memLen, memAlign) =>
      .ok (memLen, memAlign, hdr.e_entry % 2 ^ 32, hdrs)

/-- Whole parse phase (`parse.rs`, `try_parse_elf`). -/
def try_parse_elf (raw : Bytes) (addr : Nat) : Except ParseElfError Elf :=
  match try_load_header raw addr with
  | .error e => .error e
  | .ok header =>
    match try_load_program_headers header raw addr with
    | .error e => .error e
    | .ok (memLen, memAlign, entry, hdrs) =>
      .ok { raw := raw, program_headers := hdrs,
            mem_len := memLen, mem_align := memAlign, entry := entry }

end ElfLoader

namespace ElfLoader

/-- Memory protection of a loaded segment (`lib.rs`, `SegmentProtection`). -/
inductive SegmentProtection
  | RO | RW | RX
  deriving DecidableEq, Repr, Inhabited

/-- Mapping from ELF `p_flags` to a protection level (`lib.rs`,
`SegmentProtection::from_flags`).  `flags & (PF_R | PF_W | PF_X)` is
`flags % 8`; the match arms are `PF_R => RO`, `PF_W | PF_RW => RW`,
`PF_X | PF_RX => RX`, `_ => RX`. -/
def SegmentProtection.from_flags (flags : Nat) : SegmentProtection :=
  match flags % 8 with
  | 4 => .RO
  | 2 => .RW
  | 6 => .RW
  | 1 => .RX
  | 5 => .RX
  | _ => .RX

/-- What the loader does with a program header (`lib.rs`, `SegmentKind`). -/
inductive SegmentKind
  | Load | Dynamic | Relro | Unsupported
  deriving DecidableEq, Repr, Inhabited

/-- Classification of `p_type` (`lib.rs`, `SegmentKind::from_kind`);
`none` (for `PT_NULL` and `PT_GNU_STACK`) makes the iterator skip the
header. -/
def SegmentKind.from_kind (kind : Nat) : Option SegmentKind :=
  if kind = 2 then some .Dynamic
  else if kind = 0x6474E552 then some .Relro
  else if kind = 0x6474E551 then none
  else if kind = 1 then some .Load
  else if kind = 0 then none
  else some .Unsupported

/-- A 32-bit-offset/length slice descriptor (`lib.rs`, `Slice32<T>`).
`start` is in bytes, `len` in element-size units of the slice's element
type, which this embedding tracks at each use site. -/
structure Slice32 where
  start : Nat
  len   : Nat
  deriving DecidableEq, Repr, Inhabited

/-- Byte range of a `Slice32<u8>` (`lib.rs`, `Slice32::to_byte_range`,
element size 1): `start .. start.wrapping_add(len)` on `u32`. -/
def Slice32.to_byte_range (s : Slice32) : Nat × Nat :=
  (s.start, (s.start + s.len) % 2 ^ 32)

/-- Re-interpretation of a `Slice32<u8>` as a `Slice32<ElfDyn>`
(`lib.rs`, `Slice32::convert`, element sizes 1 and 16). -/
def Slice32.convert_to_dyn (s : Slice32) : Slice32 :=
  { start := s.start, len := s.len * 1 / 16 }

/-- A filtered program-header view (`lib.rs`, `struct ProgramHeader`). -/
structure ProgramHeader where
  kind       : SegmentKind
  protection : SegmentProtection
  load_range : Slice32
  copy_from  : Bytes
  deriving DecidableEq, Repr, Inhabited

/-- Construction of the public view of one raw program header (`lib.rs`,
`ProgramHeader::from_elf`).  The `as u32` casts on `p_vaddr` and `p_memsz`
are `% 2 ^ 32`; `copy_from` is the sub-slice
`elf[p_offset .. p_offset + p_filesz]` (in bounds for every header that
passed `check_ph_ranges`). -/
def ProgramHeader.from_elf (ph : ElfProgramHeader) (elf : Bytes) : Option ProgramHeader :=
  (SegmentKind.from_kind ph.p_type).map fun k =>
    { kind       := k
      protection := SegmentProtection.from_flags ph.p_flags
      load_range := { start := ph.p_vaddr % 2 ^ 32, len := ph.p_memsz % 2 ^ 32 }
      copy_from  := (elf.drop ph.p_offset).take ph.p_filesz }

/-- The filtered program headers produced by iterating the source's
`ProgramHeaders` iterator (`lib.rs`, `impl Iterator for ProgramHeaders`),
which applies `ProgramHeader::from_elf` and skips `None`. -/
def Elf.filteredHeaders (e : Elf) : List ProgramHeader :=
  e.program_headers.filterMap fun ph => ProgramHeader.from_elf ph e.raw

/-- One protect-list record (`lib.rs`, `struct Segment`). -/
structure Segment where
  range   : Slice32
  protect : SegmentProtection
  deriving DecidableEq, Repr, Inhabited

/-- Push onto the bounded protect list (`lib.rs`,
`SegmentStack::try_push`).  The stack's fixed `[Segment; 8]` array plus
`len` counter is modelled as the list of its first `len` entries, so the
capacity test `len >= data.len()` reads `segs.length ≥ 8`. -/
def SegmentStack.try_push (segs : List Segment) (ph : ProgramHeader) :
    Except LoadElfError (List Segment) :=
  if segs.length ≥ 8 then .error .TooManySegments
  else .ok (segs ++ [{ range := ph.load_range, protect := ph.protection }])

/-- Copy of one segment's file bytes to its virtual offset (`load.rs`,
`load_segment`): the destination sub-slice starts at `load_range.start` and
the copy length is `copy_from.len()`. -/
def load_segment (ph : ProgramHeader) (mem : Bytes) : Bytes :=
  writeBytes mem ph.load_range.start ph.copy_from

/-- Result of a successful load (`lib.rs`, `struct LoadedElf`). -/
structure LoadedElf where
  mem       : Bytes
  dyns      : Slice32
  mem_align : Nat
  entry     : Nat
  protect   : List Segment
  deriving DecidableEq, Repr, Inhabited

/-- The program-header loop of `load.rs`, `try_load_elf`, threading the
destination buffer, the protect list and the recorded dynamic range. -/
def load_go : List ProgramHeader → Bytes → List Segment → Option Slice32 →
    Except LoadElfError (Bytes × List Segment × Slice32)
  | [], mem, segs, dyns =>
    match dyns with
    | none => .error .NoDynamicSegments
    | some d => .ok (mem, segs, d)
  | ph :: rest, mem, segs, dyns =>
    match ph.kind with
    | .Load =>
      match SegmentStack.try_push segs ph with
      | .error e => .error e
      | .ok segs' => load_go rest (load_segment ph mem) segs' dyns
    | .Dynamic =>
      match dyns with
      | some _ => .error .MultipleDynamicSegments
      | none =>
        match SegmentStack.try_push segs ph with
        | .error e => .error e
        | .ok segs' =>
          load_go rest (load_segment ph mem) segs' (some ph.load_range.convert_to_dyn)
    | .Relro =>
      match SegmentStack.try_push segs ph with
      | .error e => .error e
      | .ok segs' => load_go rest mem segs' dyns
    | .Unsupported => load_go rest mem segs dyns

/-- Whole load phase (`load.rs`, `try_load_elf` with
`check_buffer_requirements_and_zerofill` inlined at its call site).
`memAddr` is `mem.as_ptr() as usize`; the zero-fill is the
`List.replicate` start buffer. -/
def try_load_elf (elf : Elf) (mem : Bytes) (memAddr : Nat) :
    Except LoadElfError LoadedElf :=
  if mem.length < elf.mem_len then .error .BadBufferSize
  else if memAddr % elf.mem_align ≠ 0 then .error .BadBufferAlignment
  else
    match load_go elf.filteredHeaders (List.replicate mem.length 0) [] none with
    | .error e => .error e
    | .ok (mem', segs, d) =>
      .ok { mem := mem', dyns := d, mem_align := elf.mem_align,
            entry := elf.entry, protect := segs }

end ElfLoader

namespace ElfLoader

/-- Base-address alignment check (`reloc.rs`, `base_to_offset`). -/
def base_to_offset (align : Nat) (base : Nat) : Except RelocElfError Nat :=
  if base % align = 0 then .ok base else .error .BadBaseAddressAlignment

/-- Slicing the dynamic array out of `mem` (`lib.rs`, `Slice32::try_slice`
at element type `ElfDyn`, called from `relocate_segments` with error
`BadDynAlignment`).  `memAddr` is the buffer address;
`align_of::<ElfDyn>()` is 8.  As in the source, no bounds check happens
here. -/
def try_slice_dyns (s : Slice32) (mem : Bytes) (memAddr : Nat) :
    Except RelocElfError (List ElfDyn) :=
  if (memAddr + s.start) % 8 ≠ 0 then .error .BadDynAlignment
  else .ok ((List.range s.len).map fun i => ElfDyn.fromBytes mem (s.start + 16 * i))

/-- Table slicing shared by REL and RELA (`reloc.rs`, `slice_rel`), for an
element of size `elemSize` and alignment 8 (both `ElfRel` and `ElfRela`).
Returns the byte offsets of the table's entries; a zero `off` denotes an
absent table.  `u64::checked_add` is the explicit `≥ 2 ^ 64` test. -/
def slice_rel (mem : Bytes) (memAddr off len elemSize : Nat) :
    Except RelocElfError (List Nat) :=
  if off = 0 then .ok []
  else if off + len ≥ 2 ^ 64 ∨ off + len ≥ mem.length then
    .error .BadRelRelaTableRange
  else if (memAddr + off) % 8 ≠ 0 then .error .BadRelRelaTableAlignment
  else .ok ((List.range (len / elemSize)).map fun i => off + elemSize * i)

/-- Dynamic-table walk plus table slicing (`reloc.rs`,
`find_rels_and_relas` composed with `slice_rel_rela`).  Tags: `DT_RELA` 7,
`DT_RELASZ` 8, `DT_RELAENT` 9, `DT_REL` 17, `DT_RELSZ` 18, `DT_RELENT` 19;
`RELENT`/`RELAENT` must equal 16/24 when present.  Returns the entry
offsets of the REL and the RELA table. -/
def find_rels_and_relas_go (dyns : List ElfDyn) (relOff relLen relaOff relaLen : Nat) :
    Except RelocElfError (Nat × Nat × Nat × Nat) :=
  match dyns with
  | [] => .ok (relOff, relLen, relaOff, relaLen)
  | d :: rest =>
    if d.d_tag = 17 then find_rels_and_relas_go rest d.d_val relLen relaOff relaLen
    else if d.d_tag = 18 then find_rels_and_relas_go rest relOff d.d_val relaOff relaLen
    else if d.d_tag = 19 then
      if d.d_val ≠ 16 then .error .BadRelSize
      else find_rels_and_relas_go rest relOff relLen relaOff relaLen
    else if d.d_tag = 7 then find_rels_and_relas_go rest relOff relLen d.d_val relaLen
    else if d.d_tag = 8 then find_rels_and_relas_go rest relOff relLen relaOff d.d_val
    else if d.d_tag = 9 then
      if d.d_val ≠ 24 then .error .BadRelaSize
      else find_rels_and_relas_go rest relOff relLen relaOff relaLen
    else find_rels_and_relas_go rest relOff relLen relaOff relaLen

/-- See `find_rels_and_relas_go`; table offsets and sizes start at 0. -/
def find_rels_and_relas (mem : Bytes) (memAddr : Nat) (dyns : List ElfDyn) :
    Except RelocElfError (List Nat × List Nat) :=
  match find_rels_and_relas_go dyns 0 0 0 0 with
  | .error e => .error e
  | .ok (relOff, relLen, relaOff, relaLen) =>
    match slice_rel mem memAddr relOff relLen 16 with
    | .error e => .error e
    | .ok rels =>
      match slice_rel mem memAddr relaOff relaLen 24 with
      | .error e => .error e
      | .ok relas => .ok (rels, relas)

/-- REL application (`reloc.rs`, `apply_rel`): unimplemented, fails on every
entry. -/
def apply_rel (_rel : ElfRel) : Except RelocElfError Unit :=
  .error .UnsupportedRelArch

/-- `x86_64` RELA dispatch (`reloc.rs`, `apply_rela_x86_64`).  Types:
`R_X86_64_NONE` 0 and `R_X86_64_COPY` 5 are no-ops, `R_X86_64_RELATIVE` 8
stores the 64-bit little-endian `a.wrapping_add(b)` unaligned at the
target. -/
def apply_rela_x86_64 (mem : Bytes) (rOffset ty a b : Nat) :
    Except RelocElfError Bytes :=
  if ty = 5 ∨ ty = 0 then .ok mem
  else if ty = 8 then .ok (writeBytes mem rOffset (natToLE 8 ((a + b) % 2 ^ 64)))
  else .error .UnsupportedRelaType

/-- One RELA entry (`reloc.rs`, `apply_rela`) on the `x86_64` build.  Note
the bounds check is only `r_offset < mem_len` although the store that
follows is 8 bytes wide. -/
def apply_rela (rela : ElfRela) (mem : Bytes) (memLen base : Nat) :
    Except RelocElfError Bytes :=
  if rela.r_offset ≥ memLen then .error .BadRelaOffset
  else apply_rela_x86_64 mem rela.r_offset (r_type rela.r_info) rela.r_addend (base % 2 ^ 64)

/-- The RELA loop of `relocate_segments`.  Each entry is read from the
current buffer at loop time, because the `&[ElfRela]` slice the source
iterates aliases the buffer being patched. -/
def apply_relas (entryOffs : List Nat) (mem : Bytes) (memLen base : Nat) :
    Except RelocElfError Bytes :=
  match entryOffs with
  | [] => .ok mem
  | off :: rest =>
    match apply_rela (ElfRela.fromBytes mem off) mem memLen base with
    | .error e => .error e
    | .ok mem' => apply_relas rest mem' memLen base

/-- Relocation proper (`reloc.rs`, `relocate_segments`): slice the dynamic
array, find the REL/RELA tables, apply REL entries (failing on the first
one, as `apply_rel` always errors) then RELA entries. -/
def relocate_segments (elf : LoadedElf) (memAddr off : Nat) :
    Except RelocElfError Bytes :=
  match try_slice_dyns elf.dyns elf.mem memAddr with
  | .error e => .error e
  | .ok dyns =>
    match find_rels_and_relas elf.mem memAddr dyns with
    | .error e => .error e
    | .ok (rels, relas) =>
      match rels with
      | [] => apply_relas relas elf.mem elf.mem.length off
      | r :: _ =>
        match apply_rel (ElfRel.fromBytes elf.mem r) with
        | .error e => .error e
        | .ok _ => apply_relas relas elf.mem elf.mem.length off

/-- One protection-callback invocation record: the protection and the byte
range passed to the callback.  The callback's remaining arguments
(`p_base`, `v_base`, `mem_len`) are the same for every invocation of one
`reloc` run and are determined by its inputs, so they are not recorded. -/
abbrev ProtCall := SegmentProtection × Nat × Nat

/-- The invocation a protect-list entry produces. -/
def Segment.toCall (seg : Segment) : ProtCall :=
  (seg.protect, seg.range.to_byte_range.1, seg.range.to_byte_range.2)

/-- The per-segment loop of `protect_segments`.  The callback is modelled as
a pure decision function from the varying arguments to success; the list of
invocations actually performed is returned alongside the result, making the
call sequence (the code's observable effect) explicit. -/
def protect_go (f : SegmentProtection → Nat → Nat → Bool) :
    List Segment → List ProtCall × Except RelocElfError Unit
  | [] => ([], .ok ())
  | seg :: rest =>
    let c := seg.toCall
    if f c.1 c.2.1 c.2.2 then
      let t := protect_go f rest
      (c :: t.1, t.2)
    else ([c], .error .MemProtectFailed)

/-- Protection phase (`reloc.rs`, `protect_segments`): with a callback
present, one initial read-only request over `0 .. mem.len()`, then one
request per protect-list entry, stopping at the first failure with
`MemProtectFailed`. -/
def protect_segments (memLen : Nat) (segs : List Segment)
    (cb : Option (SegmentProtection → Nat → Nat → Bool)) :
    List ProtCall × Except RelocElfError Unit :=
  match cb with
  | none => ([], .ok ())
  | some f =>
    if f .RO 0 memLen then
      let t := protect_go f segs
      ((.RO, 0, memLen) :: t.1, t.2)
    else ([(.RO, 0, memLen)], .error .MemProtectFailed)

/-- Whole relocation phase (`reloc.rs`, `try_reloc_elf`): base alignment,
relocation, protection.  Returns the performed protection-callback
invocations together with the result; on success the result carries the
patched buffer (the source mutates `elf.mem` in place). -/
def try_reloc_elf (elf : LoadedElf) (memAddr base : Nat)
    (cb : Option (SegmentProtection → Nat → Nat → Bool)) :
    List ProtCall × Except RelocElfError Bytes :=
  match base_to_offset elf.mem_align base with
  | .error e => ([], .error e)
  | .ok off =>
    match relocate_segments elf memAddr off with
    | .error e => ([], .error e)
    | .ok mem' =>
      let t := protect_segments elf.mem.length elf.protect cb
      match t.2 with
      | .ok _ => (t.1, .ok mem')
      | .error e => (t.1, .error e)

end ElfLoader

namespace ElfLoader

/-- A 64-byte little-endian ELF64 file header for a PIE (`ET_DYN`) `x86_64`
image: entry point `entry`, program-header table at `phoff` with `phnum`
entries, `e_ehsize` 64 and `e_phentsize` 56. -/
def fileHeaderBytes (entry phoff phnum : Nat) : Bytes :=
  [0x7F, 0x45, 0x4C, 0x46, 2, 1, 0, 0, 0, 0, 0, 0, 0, 0, 0, 0]
  ++ natToLE 2 3 ++ natToLE 2 62 ++ natToLE 4 0
  ++ natToLE 8 entry ++ natToLE 8 phoff ++ natToLE 8 0
  ++ natToLE 4 0 ++ natToLE 2 64 ++ natToLE 2 56 ++ natToLE 2 phnum
  ++ natToLE 2 0 ++ natToLE 2 0 ++ natToLE 2 0

/-- A 56-byte program header with `p_paddr = 0`. -/
def phBytes (ty flags off vaddr filesz memsz align : Nat) : Bytes :=
  natToLE 4 ty ++ natToLE 4 flags ++ natToLE 8 off ++ natToLE 8 vaddr
  ++ natToLE 8 0 ++ natToLE 8 filesz ++ natToLE 8 memsz ++ natToLE 8 align

/-- Image A: three program headers — two overlapping LOAD segments
(`[0, 4)` from file bytes `[10, 11, 12, 13]` and `[2, 4)` from file bytes
`[99, 98]`) and one DYNAMIC segment at `[16, 32)` holding a single
terminating dynamic entry.  255 bytes. -/
def rawA : Bytes :=
  fileHeaderBytes 0 64 3
  ++ phBytes 1 4 232 0 4 4 1
  ++ phBytes 1 4 236 2 2 2 1
  ++ phBytes 2 4 238 16 16 16 1
  ++ [10, 11, 12, 13] ++ [99, 98] ++ List.replicate 16 0 ++ [0]

/-- The parse of image A. -/
def elfA : Elf where
  raw := rawA
  program_headers :=
    [{ p_type := 1, p_flags := 4, p_offset := 232, p_vaddr := 0, p_paddr := 0,
       p_filesz := 4, p_memsz := 4, p_align := 1 },
     { p_type := 1, p_flags := 4, p_offset := 236, p_vaddr := 2, p_paddr := 0,
       p_filesz := 2, p_memsz := 2, p_align := 1 },
     { p_type := 2, p_flags := 4, p_offset := 238, p_vaddr := 16, p_paddr := 0,
       p_filesz := 16, p_memsz := 16, p_align := 1 }]
  mem_len := 32
  mem_align := 1
  entry := 0

/-- A 32-byte destination buffer for image A. -/
def memA : Bytes := List.replicate 32 0

/-- The load of image A into `memA`: the second LOAD wins on the overlap
`[2, 4)`. -/
def loadedA : LoadedElf where
  mem := [10, 11, 99, 98] ++ List.replicate 28 0
  dyns := { start := 16, len := 1 }
  mem_align := 1
  entry := 0
  protect :=
    [{ range := { start := 0, len := 4 }, protect := .RO },
     { range := { start := 2, len := 2 }, protect := .RO },
     { range := { start := 16, len := 16 }, protect := .RO }]

theorem parse_rawA : try_parse_elf rawA 0 = .ok elfA := rfl

theorem load_rawA : try_load_elf elfA memA 0 = .ok loadedA := rfl

end ElfLoader

namespace ElfLoader

/-- Dynamic-table contents of image B: `DT_RELA = 48`, `DT_RELASZ = 24`,
then a terminating null entry (48 bytes). -/
def dynContentB : Bytes :=
  natToLE 8 7 ++ natToLE 8 48 ++ natToLE 8 8 ++ natToLE 8 24
  ++ natToLE 8 0 ++ natToLE 8 0

/-- RELA-table contents of image B: a single `R_X86_64_RELATIVE` entry with
`r_offset = 79` and `r_addend = 1` (24 bytes). -/
def relaContentB : Bytes := natToLE 8 79 ++ natToLE 8 8 ++ natToLE 8 1

/-- Image B: a DYNAMIC segment at `[0, 48)` and a LOAD segment at
`[48, 72)` holding the RELA table above.  249 bytes; the parsed `mem_len`
is 72, and the destination buffer used below has 80 bytes, so the RELA
entry's `r_offset` 79 passes the `r_offset < mem.len()` check although the
8-byte store at it ends at 87. -/
def rawB : Bytes :=
  fileHeaderBytes 0 64 2
  ++ phBytes 2 4 176 0 48 48 1
  ++ phBytes 1 4 224 48 24 24 1
  ++ dynContentB ++ relaContentB ++ [0]

/-- The parse of image B. -/
def elfB : Elf where
  raw := rawB
  program_headers :=
    [{ p_type := 2, p_flags := 4, p_offset := 176, p_vaddr := 0, p_paddr := 0,
       p_filesz := 48, p_memsz := 48, p_align := 1 },
     { p_type := 1, p_flags := 4, p_offset := 224, p_vaddr := 48, p_paddr := 0,
       p_filesz := 24, p_memsz := 24, p_align := 1 }]
  mem_len := 72
  mem_align := 1
  entry := 0

/-- An 80-byte destination buffer for image B. -/
def memB : Bytes := List.replicate 80 0

/-- The load of image B into `memB`. -/
def loadedB : LoadedElf where
  mem := dynContentB ++ relaContentB ++ List.replicate 8 0
  dyns := { start := 0, len := 3 }
  mem_align := 1
  entry := 0
  protect :=
    [{ range := { start := 0, len := 48 }, protect := .RO },
     { range := { start := 48, len := 24 }, protect := .RO }]

theorem parse_rawB : try_parse_elf rawB 0 = .ok elfB := rfl

theorem load_rawB : try_load_elf elfB memB 0 = .ok loadedB := rfl

/-- Image C: exactly 64 bytes, a valid file header with `e_phoff = 0`,
no program headers and zero entry. -/
def rawC : Bytes := fileHeaderBytes 0 0 0

/-- The parse of image C: empty header list, `mem_len = 0`,
`mem_align = 1`. -/
def elfC : Elf where
  raw := rawC
  program_headers := []
  mem_len := 0
  mem_align := 1
  entry := 0

theorem parse_rawC : try_parse_elf rawC 0 = .ok elfC := rfl

/-- Image D: like image C but with `e_phoff = 64`, so that
`e_phoff + e_phnum * 56 = 64 = len(raw)` exactly. -/
def rawD : Bytes := fileHeaderBytes 0 64 0

/-- The file header of image D. -/
def hdrD : ElfFileHeader := ElfFileHeader.fromBytes rawD

theorem header_rawD : try_load_header rawD 0 = .ok hdrD := rfl

/-- Image E: one program header of type `PT_NULL` (0) whose file range ends
exactly at the end of the buffer (`p_offset = 121 = len(raw)`,
`p_filesz = 0`).  121 bytes. -/
def rawE : Bytes :=
  fileHeaderBytes 0 64 1 ++ phBytes 0 0 121 0 0 0 0 ++ [0]

/-- The single program header of image E. -/
def phE : ElfProgramHeader := ElfProgramHeader.fromBytes rawE 64

theorem parse_rawE : try_parse_elf rawE 0 = .error .BadPhRange := rfl

end ElfLoader

namespace ElfLoader

theorem writeBytes_length (mem : Bytes) (dst : Nat) (src : Bytes) :
    (writeBytes mem dst src).length = mem.length := by
  simp [writeBytes]

theorem getD_writeBytes (mem : Bytes) (dst : Nat) (src : Bytes) (j : Nat)
    (hj : j < mem.length) :
    (writeBytes mem dst src).getD j 0 =
      if dst ≤ j ∧ j < dst + src.length then src.getD (j - dst) 0
      else mem.getD j 0 := by
  rw [List.getD_eq_getElem?_getD, writeBytes, List.getElem?_map,
    List.getElem?_range hj]
  rfl

theorem getD_eq_zero_of_length_le (l : Bytes) (i : Nat) (h : l.length ≤ i) :
    l.getD i 0 = 0 := by
  rw [List.getD_eq_getElem?_getD, List.getElem?_eq_none h]
  rfl

theorem getD_replicate_zero (n j : Nat) : (List.replicate n 0 : Bytes).getD j 0 = 0 := by
  rcases Nat.lt_or_ge j n with h | h
  · simp [List.getD_eq_getElem?_getD, List.getElem?_replicate, h]
  · exact getD_eq_zero_of_length_le _ _ (by simpa using h)

theorem length_drop_take (raw : Bytes) (off fsz : Nat) (h : off + fsz ≤ raw.length) :
    ((raw.drop off).take fsz).length = fsz := by
  simp only [List.length_take, List.length_drop]
  omega

theorem getD_drop_take (raw : Bytes) (off fsz i : Nat) (h1 : i < fsz) :
    ((raw.drop off).take fsz).getD i 0 = raw.getD (off + i) 0 := by
  rw [List.getD_eq_getElem?_getD, List.getD_eq_getElem?_getD, List.getElem?_take,
    List.getElem?_drop]
  simp [h1]

end ElfLoader

namespace ElfLoader

/-- The file-range test of the scan (the first `if` of `check_ph_ranges_go`):
`p_offset.checked_add(p_filesz)` overflows or the sum reaches `rawLen`. -/
def ph_range_bad (ph : ElfProgramHeader) (rawLen : Nat) : Prop :=
  2 ^ 64 ≤ ph.p_offset + ph.p_filesz ∨ rawLen ≤ ph.p_offset + ph.p_filesz

/-- The virtual-range test of the scan (the second `if` of
`check_ph_ranges_go`). -/
def ph_vmem_bad (ph : ElfProgramHeader) : Prop :=
  2 ^ 64 ≤ ph.p_vaddr + ph.p_memsz ∨ 2 ^ 32 - 1 < ph.p_vaddr + ph.p_memsz
  ∨ 2 ^ 32 - 1 < ph.p_memsz

/-- A program header that passes all four per-header checks of
`check_ph_ranges`. -/
def perHeaderOk (ph : ElfProgramHeader) (rawLen : Nat) : Prop :=
  ¬ ph_range_bad ph rawLen ∧ ¬ ph_vmem_bad ph
  ∧ ph.p_filesz ≤ ph.p_memsz ∧ ph.p_align ≤ 2 ^ 32 - 1

instance (ph : ElfProgramHeader) (rawLen : Nat) : Decidable (ph_range_bad ph rawLen) := by
  unfold ph_range_bad; infer_instance

instance (ph : ElfProgramHeader) : Decidable (ph_vmem_bad ph) := by
  unfold ph_vmem_bad; infer_instance

instance (ph : ElfProgramHeader) (rawLen : Nat) : Decidable (perHeaderOk ph rawLen) := by
  unfold perHeaderOk; infer_instance

/-- The per-header entry test of the scan: an executable LOAD header whose
virtual range contains `ent` (stated with the plain sum, which equals the
source's wrapped sum for every header that passes the virtual-range
check). -/
def entry_in_exe_at (ph : ElfProgramHeader) (ent : Nat) : Prop :=
  ph.p_type = 1 ∧ ph.p_flags % 2 = 1 ∧ ph.p_vaddr ≤ ent ∧ ent < ph.p_vaddr + ph.p_memsz

instance (ph : ElfProgramHeader) (ent : Nat) : Decidable (entry_in_exe_at ph ent) := by
  unfold entry_in_exe_at; infer_instance

theorem check_go_ok {rawLen ent : Nat} :
    ∀ (hdrs : List ElfProgramHeader) (endOff maxAlign : Nat) (flag : Bool)
      (memLen align : Nat),
      check_ph_ranges_go rawLen ent hdrs endOff maxAlign flag = .ok (memLen, align) →
      endOff ≤ memLen ∧ maxAlign ≤ align ∧
      ∀ ph ∈ hdrs, perHeaderOk ph rawLen ∧ ph.p_vaddr + ph.p_memsz ≤ memLen
  | [], endOff, maxAlign, flag, memLen, align => by
    intro h
    unfold check_ph_ranges_go at h
    split at h
    · cases h
    · cases h
      exact ⟨Nat.le_refl _, Nat.le_refl _, by simp⟩
  | ph :: rest, endOff, maxAlign, flag, memLen, align => by
    intro h
    simp only [check_ph_ranges_go] at h
    split at h
    · cases h
    rename_i hr
    split at h
    · cases h
    rename_i hv
    split at h
    · cases h
    rename_i hm
    split at h
    case isFalse => cases h
    rename_i ha
    have ih := check_go_ok rest _ _ _ _ _ h
    have hvm : ph.p_vaddr + ph.p_memsz < 2 ^ 64 := by omega
    have hvm32 : ph.p_vaddr + ph.p_memsz ≤ 2 ^ 32 - 1 := by omega
    have he : (ph.p_vaddr + ph.p_memsz) % 2 ^ 64 % 2 ^ 32
        = ph.p_vaddr + ph.p_memsz := by
      rw [Nat.mod_eq_of_lt hvm, Nat.mod_eq_of_lt (by omega)]
    refine ⟨?_, ?_, ?_⟩
    · exact Nat.le_trans (by split <;> omega) ih.1
    · exact Nat.le_trans (by split <;> omega) ih.2.1
    · intro q hq
      rcases List.mem_cons.mp hq with rfl | hq
      · refine ⟨⟨?_, ?_, by omega, ha⟩, ?_⟩
        · unfold ph_range_bad; omega
        · unfold ph_vmem_bad; omega
        · rw [← he]
          exact Nat.le_trans (by split <;> omega) ih.1
      · exact ih.2.2 q hq

end ElfLoader

namespace ElfLoader

theorem check_go_bounds {rawLen ent : Nat} :
    ∀ (hdrs : List ElfProgramHeader) (endOff maxAlign : Nat) (flag : Bool)
      (memLen align : Nat),
      endOff ≤ 2 ^ 32 - 1 → maxAlign ≤ 2 ^ 32 - 1 →
      check_ph_ranges_go rawLen ent hdrs endOff maxAlign flag = .ok (memLen, align) →
      memLen ≤ 2 ^ 32 - 1 ∧ align ≤ 2 ^ 32 - 1
  | [], endOff, maxAlign, flag, memLen, align => by
    intro he ha h
    unfold check_ph_ranges_go at h
    split at h
    · cases h
    · cases h
      exact ⟨he, ha⟩
  | ph :: rest, endOff, maxAlign, flag, memLen, align => by
    intro he ha h
    simp only [check_ph_ranges_go] at h
    split at h
    · cases h
    split at h
    · cases h
    split at h
    · cases h
    split at h
    case isFalse => cases h
    rename_i hal
    refine check_go_bounds rest _ _ _ _ _ ?_ ?_ h
    · have : (ph.p_vaddr + ph.p_memsz) % 2 ^ 64 % 2 ^ 32 < 2 ^ 32 :=
        Nat.mod_lt _ (by norm_num)
      split <;> omega
    · split <;> omega

theorem check_go_ne_overflow {rawLen ent : Nat} :
    ∀ (hdrs : List ElfProgramHeader) (endOff maxAlign : Nat) (flag : Bool),
      check_ph_ranges_go rawLen ent hdrs endOff maxAlign flag
        ≠ .error .ProgramHeaderOverflow
  | [], endOff, maxAlign, flag => by
    unfold check_ph_ranges_go
    split <;> simp
  | ph :: rest, endOff, maxAlign, flag => by
    simp only [check_ph_ranges_go]
    split
    · simp
    split
    · simp
    split
    · simp
    split
    case isFalse => simp
    exact check_go_ne_overflow rest _ _ _

theorem check_go_bad_ph_range {rawLen ent : Nat} :
    ∀ (hdrs : List ElfProgramHeader) (endOff maxAlign : Nat) (flag : Bool),
      check_ph_ranges_go rawLen ent hdrs endOff maxAlign flag = .error .BadPhRange ↔
        ∃ pre ph rest, hdrs = pre ++ ph :: rest
          ∧ (∀ q ∈ pre, perHeaderOk q rawLen) ∧ ph_range_bad ph rawLen
  | [], endOff, maxAlign, flag => by
    constructor
    · intro h
      unfold check_ph_ranges_go at h
      split at h
      · cases h
      · cases h
    · rintro ⟨pre, ph, rest, habs, -, -⟩
      cases pre <;> cases habs
  | ph :: rest, endOff, maxAlign, flag => by
    simp only [check_ph_ranges_go]
    split
    case isTrue hr =>
      constructor
      · intro _
        exact ⟨[], ph, rest, rfl, by simp, hr⟩
      · intro _
        rfl
    rename_i hr
    split
    case isTrue hv =>
      constructor
      · intro h
        cases h
      · rintro ⟨pre, q, rest', heq, hpre, hbad⟩
        cases pre with
        | nil =>
          cases heq
          exact absurd hbad hr
        | cons p pre' =>
          cases heq
          exact absurd hv ((hpre _ (List.mem_cons_self _ _)).2.1)
    rename_i hv
    split
    case isTrue hm =>
      constructor
      · intro h
        cases h
      · rintro ⟨pre, q, rest', heq, hpre, hbad⟩
        cases pre with
        | nil =>
          cases heq
          exact absurd hbad hr
        | cons p pre' =>
          cases heq
          exact absurd ((hpre _ (List.mem_cons_self _ _)).2.2.1) (by omega)
    rename_i hm
    split
    case isFalse hal =>
      constructor
      · intro h
        cases h
      · rintro ⟨pre, q, rest', heq, hpre, hbad⟩
        cases pre with
        | nil =>
          cases heq
          exact absurd hbad hr
        | cons p pre' =>
          cases heq
          exact absurd ((hpre _ (List.mem_cons_self _ _)).2.2.2) hal
    rename_i hal
    rw [check_go_bad_ph_range rest]
    constructor
    · rintro ⟨pre, q, rest', heq, hpre, hbad⟩
      refine ⟨ph :: pre, q, rest', by simp [heq], ?_, hbad⟩
      intro p hp
      rcases List.mem_cons.mp hp with rfl | hp
      · exact ⟨hr, hv, by omega, hal⟩
      · exact hpre p hp
    · rintro ⟨pre, q, rest', heq, hpre, hbad⟩
      cases pre with
      | nil =>
        cases heq
        exact absurd hbad hr
      | cons p pre' =>
        cases heq
        exact ⟨pre', q, rest', rfl, fun x hx => hpre x (List.mem_cons_of_mem _ hx), hbad⟩

end ElfLoader

namespace ElfLoader

theorem check_go_entry_witness {rawLen ent : Nat} :
    ∀ (hdrs : List ElfProgramHeader) (endOff maxAlign : Nat) (res : Nat × Nat),
      check_ph_ranges_go rawLen ent hdrs endOff maxAlign false = .ok res →
      ent ≠ 0 →
      ∃ ph ∈ hdrs, entry_in_exe_at ph ent
  | [], endOff, maxAlign, res => by
    intro h hent
    unfold check_ph_ranges_go at h
    rw [if_pos ⟨hent, rfl⟩] at h
    cases h
  | ph :: rest, endOff, maxAlign, res => by
    intro h hent
    simp only [check_ph_ranges_go] at h
    split at h
    · cases h
    split at h
    · cases h
    rename_i hv
    split at h
    · cases h
    split at h
    case isFalse => cases h
    by_cases hc : ent ≠ 0 ∧ ph.p_type = 1 ∧ ph.p_flags % 2 = 1
        ∧ ent ≥ ph.p_vaddr ∧ ent < (ph.p_vaddr + ph.p_memsz) % 2 ^ 64
    · refine ⟨ph, List.mem_cons_self _ _, hc.2.1, hc.2.2.1, hc.2.2.2.1, ?_⟩
      have hmod : (ph.p_vaddr + ph.p_memsz) % 2 ^ 64 = ph.p_vaddr + ph.p_memsz :=
        Nat.mod_eq_of_lt (by omega)
      have := hc.2.2.2.2
      omega
    · rw [if_neg hc] at h
      obtain ⟨q, hq, hcq⟩ := check_go_entry_witness rest _ _ _ h hent
      exact ⟨q, List.mem_cons_of_mem _ hq, hcq⟩

theorem check_go_entry_accept {rawLen ent : Nat} :
    ∀ (hdrs : List ElfProgramHeader) (endOff maxAlign : Nat) (flag : Bool),
      (∀ ph ∈ hdrs, perHeaderOk ph rawLen) →
      (ent = 0 ∨ flag = true ∨ ∃ ph ∈ hdrs, entry_in_exe_at ph ent) →
      ∃ res, check_ph_ranges_go rawLen ent hdrs endOff maxAlign flag = .ok res
  | [], endOff, maxAlign, flag => by
    intro _ hw
    refine ⟨(endOff, maxAlign), ?_⟩
    unfold check_ph_ranges_go
    rw [if_neg]
    rintro ⟨hne, hfl⟩
    rcases hw with h0 | hfl2 | ⟨ph, hph, -⟩
    · exact hne h0
    · rw [hfl] at hfl2
      cases hfl2
    · cases hph
  | ph :: rest, endOff, maxAlign, flag => by
    intro hok hw
    obtain ⟨hr, hv, hm, hal⟩ := hok ph (List.mem_cons_self _ _)
    simp only [check_ph_ranges_go]
    rw [if_neg (by unfold ph_range_bad at hr; omega)]
    rw [if_neg (by unfold ph_vmem_bad at hv; omega)]
    rw [if_neg (by omega)]
    rw [if_pos hal]
    refine check_go_entry_accept rest _ _ _
      (fun q hq => hok q (List.mem_cons_of_mem _ hq)) ?_
    by_cases h0 : ent = 0
    · exact Or.inl h0
    rcases hw with h0x | hfl | ⟨q, hq, hcq⟩
    · exact absurd h0x h0
    · refine Or.inr (Or.inl ?_)
      rw [hfl]
      split <;> rfl
    · rcases List.mem_cons.mp hq with rfl | hq
      · refine Or.inr (Or.inl ?_)
        have hmod : (q.p_vaddr + q.p_memsz) % 2 ^ 64 = q.p_vaddr + q.p_memsz := by
          unfold ph_vmem_bad at hv
          exact Nat.mod_eq_of_lt (by omega)
        rw [if_pos ⟨h0, hcq.1, hcq.2.1, hcq.2.2.1, by
          rw [hmod]
          exact hcq.2.2.2⟩]
      · exact Or.inr (Or.inr ⟨q, hq, hcq⟩)

theorem check_go_entry_reject {rawLen ent : Nat} :
    ∀ (hdrs : List ElfProgramHeader) (endOff maxAlign : Nat),
      (∀ ph ∈ hdrs, perHeaderOk ph rawLen) →
      ent ≠ 0 →
      (∀ ph ∈ hdrs, ¬ entry_in_exe_at ph ent) →
      check_ph_ranges_go rawLen ent hdrs endOff maxAlign false = .error .BadEntry
  | [], endOff, maxAlign => by
    intro _ hent _
    unfold check_ph_ranges_go
    rw [if_pos ⟨hent, rfl⟩]
  | ph :: rest, endOff, maxAlign => by
    intro hok hent hno
    obtain ⟨hr, hv, hm, hal⟩ := hok ph (List.mem_cons_self _ _)
    have hcf : ¬ (ent ≠ 0 ∧ ph.p_type = 1 ∧ ph.p_flags % 2 = 1
        ∧ ent ≥ ph.p_vaddr ∧ ent < (ph.p_vaddr + ph.p_memsz) % 2 ^ 64) := by
      rintro ⟨-, ht, hx, hge, hlt⟩
      refine hno ph (List.mem_cons_self _ _) ⟨ht, hx, hge, ?_⟩
      have hmod : (ph.p_vaddr + ph.p_memsz) % 2 ^ 64 = ph.p_vaddr + ph.p_memsz := by
        unfold ph_vmem_bad at hv
        exact Nat.mod_eq_of_lt (by omega)
      omega
    simp only [check_ph_ranges_go]
    rw [if_neg (by unfold ph_range_bad at hr; omega)]
    rw [if_neg (by unfold ph_vmem_bad at hv; omega)]
    rw [if_neg (by omega)]
    rw [if_pos hal]
    rw [if_neg hcf]
    exact check_go_entry_reject rest _ _
      (fun q hq => hok q (List.mem_cons_of_mem _ hq)) hent
      (fun q hq => hno q (List.mem_cons_of_mem _ hq))

end ElfLoader

namespace ElfLoader

theorem try_load_header_ok {raw : Bytes} {addr : Nat} {hdr : ElfFileHeader}
    (h : try_load_header raw addr = .ok hdr) :
    hdr = ElfFileHeader.fromBytes raw ∧ 64 ≤ raw.length
    ∧ raw.length ≤ 2 ^ 32 - 1 ∧ addr % 8 = 0 := by
  simp only [try_load_header] at h
  split at h
  · cases h
  rename_i hsz
  split at h
  · cases h
  rename_i hal
  split at h
  · cases h
  split at h
  · cases h
  split at h
  · cases h
  split at h
  · cases h
  split at h
  · cases h
  split at h
  · cases h
  cases h
  exact ⟨rfl, by omega, by omega, by omega⟩

theorem try_parse_elf_ok {raw : Bytes} {addr : Nat} {elf : Elf}
    (h : try_parse_elf raw addr = .ok elf) :
    elf.raw = raw ∧
    elf.program_headers = (List.range (ElfFileHeader.fromBytes raw).e_phnum).map
      (fun i => ElfProgramHeader.fromBytes raw
        ((ElfFileHeader.fromBytes raw).e_phoff + 56 * i)) ∧
    check_ph_ranges elf.program_headers raw.length
      (ElfFileHeader.fromBytes raw).e_entry = .ok (elf.mem_len, elf.mem_align) ∧
    elf.entry = (ElfFileHeader.fromBytes raw).e_entry % 2 ^ 32 ∧
    64 ≤ raw.length ∧ raw.length ≤ 2 ^ 32 - 1 := by
  unfold try_parse_elf at h
  split at h
  · cases h
  rename_i hdr hhdr
  obtain ⟨rfl, h64, h32, -⟩ := try_load_header_ok hhdr
  split at h
  · cases h
  rename_i res hres
  simp only [try_load_program_headers] at hres
  split at hres
  · cases hres
  split at hres
  · cases hres
  split at hres
  · cases hres
  split at hres
  · cases hres
  rename_i out hout
  cases hres
  cases h
  exact ⟨rfl, rfl, hout, rfl, h64, h32⟩

theorem parse_ok_headers {raw : Bytes} {addr : Nat} {elf : Elf}
    (h : try_parse_elf raw addr = .ok elf) :
    ∀ ph ∈ elf.program_headers,
      perHeaderOk ph raw.length ∧ ph.p_vaddr + ph.p_memsz ≤ elf.mem_len := by
  obtain ⟨-, -, hchk, -⟩ := try_parse_elf_ok h
  exact (check_go_ok _ _ _ _ _ _ hchk).2.2

theorem parse_ok_bounds {raw : Bytes} {addr : Nat} {elf : Elf}
    (h : try_parse_elf raw addr = .ok elf) :
    elf.mem_len ≤ 2 ^ 32 - 1 ∧ 1 ≤ elf.mem_align ∧ elf.mem_align ≤ 2 ^ 32 - 1 := by
  obtain ⟨-, -, hchk, -⟩ := try_parse_elf_ok h
  have h1 := check_go_bounds _ _ _ _ _ _ (by omega) (by omega) hchk
  have h2 := check_go_ok _ _ _ _ _ _ hchk
  exact ⟨h1.1, h2.2.1, h1.2⟩

end ElfLoader

namespace ElfLoader

/-- Byte `j` of the destination lies in the file-backed part of `ph`'s
segment, for a header that the loader copies (LOAD or DYNAMIC). -/
def coversByte (ph : ElfProgramHeader) (j : Nat) : Prop :=
  (ph.p_type = 1 ∨ ph.p_type = 2) ∧ ph.p_vaddr ≤ j ∧ j < ph.p_vaddr + ph.p_filesz

instance (ph : ElfProgramHeader) (j : Nat) : Decidable (coversByte ph j) := by
  unfold coversByte; infer_instance

/-- The last LOAD or DYNAMIC header in table order whose file-backed range
contains byte `j`; its copy is the one that survives in the destination. -/
def lastCovering (phs : List ElfProgramHeader) (j : Nat) : Option ElfProgramHeader :=
  match phs with
  | [] => none
  | ph :: rest =>
    match lastCovering rest j with
    | some q => some q
    | none => if coversByte ph j then some ph else none

theorem lastCovering_eq_none {j : Nat} :
    ∀ {phs : List ElfProgramHeader},
      lastCovering phs j = none ↔ ∀ ph ∈ phs, ¬ coversByte ph j
  | [] => by simp [lastCovering]
  | ph :: rest => by
    unfold lastCovering
    cases h : lastCovering rest j with
    | some q =>
      simp only [reduceCtorEq, false_iff]
      intro hall
      rw [lastCovering_eq_none.2 fun p hp => hall p (List.mem_cons_of_mem _ hp)] at h
      cases h
    | none =>
      constructor
      · intro hnone p hp
        rcases List.mem_cons.mp hp with rfl | hp
        · intro hc
          rw [if_pos hc] at hnone
          cases hnone
        · exact (lastCovering_eq_none.1 h) p hp
      · intro hall
        rw [if_neg (hall ph (List.mem_cons_self _ _))]

theorem lastCovering_cons_skip {ph : ElfProgramHeader} {rest : List ElfProgramHeader}
    {j : Nat} (h1 : ph.p_type ≠ 1) (h2 : ph.p_type ≠ 2) :
    lastCovering (ph :: rest) j = lastCovering rest j := by
  cases h : lastCovering rest j with
  | some q => simp only [lastCovering, h]
  | none =>
    simp only [lastCovering, h]
    rw [if_neg]
    rintro ⟨ht | ht, -, -⟩
    · exact h1 ht
    · exact h2 ht

theorem from_kind_eq_load {t : Nat} (h : SegmentKind.from_kind t = some .Load) :
    t = 1 := by
  unfold SegmentKind.from_kind at h
  split at h <;> first | cases h | skip
  split at h <;> first | cases h | skip
  split at h <;> first | cases h | skip
  split at h
  · assumption
  split at h <;> cases h

theorem from_kind_eq_dynamic {t : Nat} (h : SegmentKind.from_kind t = some .Dynamic) :
    t = 2 := by
  unfold SegmentKind.from_kind at h
  split at h
  · assumption
  split at h <;> first | cases h | skip
  split at h <;> first | cases h | skip
  split at h <;> first | cases h | skip
  split at h <;> cases h

theorem from_kind_not_loaddyn {t : Nat} {k : Option SegmentKind}
    (h : SegmentKind.from_kind t = k) (hk1 : k ≠ some .Load) (hk2 : k ≠ some .Dynamic) :
    t ≠ 1 ∧ t ≠ 2 := by
  unfold SegmentKind.from_kind at h
  constructor
  · rintro rfl
    simp at h
    exact hk1 h.symm
  · rintro rfl
    simp at h
    exact hk2 h.symm

end ElfLoader

namespace ElfLoader

/-- The bounds the parser guarantees for every program header before the
loader slices with them. -/
def loadPhOk (ph : ElfProgramHeader) (rawLen : Nat) : Prop :=
  ph.p_offset + ph.p_filesz ≤ rawLen ∧ ph.p_vaddr + ph.p_memsz ≤ 2 ^ 32 - 1

theorem load_write_char {raw : Bytes} {ph : ElfProgramHeader}
    {rest : List ElfProgramHeader} {mem out1 : Bytes}
    (hok : loadPhOk ph raw.length)
    (hty : ph.p_type = 1 ∨ ph.p_type = 2)
    (hlen : out1.length
      = (writeBytes mem (ph.p_vaddr % 2 ^ 32) ((raw.drop ph.p_offset).take ph.p_filesz)).length)
    (hbyte : ∀ j, j < mem.length →
      out1.getD j 0 = (match lastCovering rest j with
        | none =>
          (writeBytes mem (ph.p_vaddr % 2 ^ 32)
            ((raw.drop ph.p_offset).take ph.p_filesz)).getD j 0
        | some q => raw.getD (q.p_offset + (j - q.p_vaddr)) 0)) :
    out1.length = mem.length ∧
    ∀ j, j < mem.length →
      out1.getD j 0 = (match lastCovering (ph :: rest) j with
        | none => mem.getD j 0
        | some q => raw.getD (q.p_offset + (j - q.p_vaddr)) 0) := by
  have hvaddr : ph.p_vaddr % 2 ^ 32 = ph.p_vaddr :=
    Nat.mod_eq_of_lt (by have := hok.2; omega)
  have hsrc : ((raw.drop ph.p_offset).take ph.p_filesz).length = ph.p_filesz :=
    length_drop_take _ _ _ hok.1
  refine ⟨by rw [hlen, writeBytes_length], fun j hj => ?_⟩
  rw [hbyte j hj]
  cases hlast : lastCovering rest j with
  | some q => simp only [lastCovering, hlast]
  | none =>
    simp only [lastCovering, hlast]
    rw [getD_writeBytes _ _ _ _ hj, hvaddr, hsrc]
    by_cases hc : ph.p_vaddr ≤ j ∧ j < ph.p_vaddr + ph.p_filesz
    · rw [if_pos hc, if_pos ⟨hty, hc⟩]
      exact getD_drop_take _ _ _ _ (by omega)
    · rw [if_neg hc, if_neg fun hy => hc hy.2]

theorem load_go_chars {raw : Bytes} :
    ∀ (phs : List ElfProgramHeader) (mem : Bytes) (segs : List Segment)
      (dyns : Option Slice32) (out : Bytes × List Segment × Slice32),
      (∀ ph ∈ phs, loadPhOk ph raw.length) →
      load_go (phs.filterMap fun p => ProgramHeader.from_elf p raw) mem segs dyns
        = .ok out →
      out.1.length = mem.length ∧
      ∀ j, j < mem.length →
        out.1.getD j 0 = (match lastCovering phs j with
          | none => mem.getD j 0
          | some ph => raw.getD (ph.p_offset + (j - ph.p_vaddr)) 0)
  | [], mem, segs, dyns, out => by
    intro _ h
    rw [List.filterMap_nil] at h
    simp only [load_go] at h
    split at h
    · cases h
    cases h
    exact ⟨rfl, fun j hj => by simp [lastCovering]⟩
  | ph :: rest, mem, segs, dyns, out => by
    intro hok h
    have hokr : ∀ q ∈ rest, loadPhOk q raw.length :=
      fun q hq => hok q (List.mem_cons_of_mem _ hq)
    cases hfk : SegmentKind.from_kind ph.p_type with
    | none =>
      simp only [List.filterMap_cons, ProgramHeader.from_elf, hfk,
        Option.map_none'] at h
      obtain ⟨hty1, hty2⟩ := from_kind_not_loaddyn hfk (by simp) (by simp)
      have ih := load_go_chars rest mem segs dyns out hokr h
      refine ⟨ih.1, fun j hj => ?_⟩
      rw [lastCovering_cons_skip hty1 hty2]
      exact ih.2 j hj
    | some k =>
      simp only [List.filterMap_cons, ProgramHeader.from_elf, hfk,
        Option.map_some'] at h
      cases k with
      | Load =>
        have hty := from_kind_eq_load hfk
        simp only [load_go] at h
        split at h
        · cases h
        rename_i segs2 hpush
        have ih := load_go_chars rest _ _ _ _ hokr h
        simp only [load_segment] at ih
        refine load_write_char (hok ph (List.mem_cons_self _ _)) (Or.inl hty) ih.1 ?_
        intro j hj
        exact ih.2 j (by rw [writeBytes_length]; exact hj)
      | Dynamic =>
        have hty := from_kind_eq_dynamic hfk
        simp only [load_go] at h
        split at h
        · cases h
        split at h
        · cases h
        rename_i segs2 hpush
        have ih := load_go_chars rest _ _ _ _ hokr h
        simp only [load_segment] at ih
        refine load_write_char (hok ph (List.mem_cons_self _ _)) (Or.inr hty) ih.1 ?_
        intro j hj
        exact ih.2 j (by rw [writeBytes_length]; exact hj)
      | Relro =>
        obtain ⟨hty1, hty2⟩ := from_kind_not_loaddyn hfk (by simp) (by simp)
        simp only [load_go] at h
        split at h
        · cases h
        rename_i segs2 hpush
        have ih := load_go_chars rest mem segs2 dyns out hokr h
        refine ⟨ih.1, fun j hj => ?_⟩
        rw [lastCovering_cons_skip hty1 hty2]
        exact ih.2 j hj
      | Unsupported =>
        obtain ⟨hty1, hty2⟩ := from_kind_not_loaddyn hfk (by simp) (by simp)
        simp only [load_go] at h
        have ih := load_go_chars rest mem segs dyns out hokr h
        refine ⟨ih.1, fun j hj => ?_⟩
        rw [lastCovering_cons_skip hty1 hty2]
        exact ih.2 j hj

end ElfLoader

namespace ElfLoader

theorem try_load_elf_ok {elf : Elf} {mem : Bytes} {memAddr : Nat} {loaded : LoadedElf}
    (h : try_load_elf elf mem memAddr = .ok loaded) :
    elf.mem_len ≤ mem.length ∧ memAddr % elf.mem_align = 0 ∧
    ∃ segs d,
      load_go elf.filteredHeaders (List.replicate mem.length 0) [] none
        = .ok (loaded.mem, segs, d)
      ∧ loaded.protect = segs ∧ loaded.dyns = d
      ∧ loaded.mem_align = elf.mem_align ∧ loaded.entry = elf.entry := by
  unfold try_load_elf at h
  split at h
  · cases h
  rename_i hsz
  split at h
  · cases h
  rename_i hal
  split at h
  · cases h
  rename_i mem2 segs2 d2 hgo
  cases h
  exact ⟨by omega, by omega, segs2, d2, hgo, rfl, rfl, rfl, rfl⟩

theorem parse_ok_load_ph_ok {raw : Bytes} {addr : Nat} {elf : Elf}
    (h : try_parse_elf raw addr = .ok elf) :
    ∀ ph ∈ elf.program_headers, loadPhOk ph raw.length := by
  intro ph hph
  obtain ⟨⟨hr, hv, -, -⟩, -⟩ := parse_ok_headers h ph hph
  unfold ph_range_bad at hr
  unfold ph_vmem_bad at hv
  exact ⟨by omega, by omega⟩

end ElfLoader

namespace ElfLoader

/-- C1 (amended): for every successfully parsed and loaded image, the
destination keeps its length, every byte outside all LOAD/DYNAMIC
file-backed ranges is zero, and every byte inside such ranges equals the
corresponding file byte of the last (in table order) LOAD or DYNAMIC
header covering it — overlapping segments are resolved in favour of the
later header, not of every covering header. -/
theorem c1_loaded_buffer_contents :
    ∀ (raw : Bytes) (addr : Nat) (elf : Elf) (mem : Bytes) (memAddr : Nat)
      (loaded : LoadedElf),
      try_parse_elf raw addr = .ok elf →
      try_load_elf elf mem memAddr = .ok loaded →
      loaded.mem.length = mem.length ∧
      ∀ j, j < mem.length →
        ((∀ ph ∈ elf.program_headers, ¬ coversByte ph j) →
          loaded.mem.getD j 0 = 0) ∧
        ∀ ph, lastCovering elf.program_headers j = some ph →
          loaded.mem.getD j 0 = raw.getD (ph.p_offset + (j - ph.p_vaddr)) 0 := by
  intro raw addr elf mem memAddr loaded hparse hload
  obtain ⟨hraw, -, -, -, -, -⟩ := try_parse_elf_ok hparse
  obtain ⟨hsz, hal, segs, d, hgo, -, -, -, -⟩ := try_load_elf_ok hload
  rw [show elf.filteredHeaders
      = elf.program_headers.filterMap (fun p => ProgramHeader.from_elf p raw) from by
    unfold Elf.filteredHeaders
    rw [hraw]] at hgo
  have hchars := load_go_chars elf.program_headers (List.replicate mem.length 0)
    [] none (loaded.mem, segs, d) (parse_ok_load_ph_ok hparse) hgo
  have hlen : loaded.mem.length = mem.length := by
    have := hchars.1
    simpa using this
  refine ⟨hlen, fun j hj => ?_⟩
  have hbyte := hchars.2 j (by simpa using hj)
  constructor
  · intro hnone
    rw [hbyte, lastCovering_eq_none.2 hnone]
    exact getD_replicate_zero _ _
  · intro ph hlast
    rw [hbyte, hlast]

/-- Witness for C1: at image A, the byte at offset 4 (covered by no
segment's file range) is zero, and byte 2 equals file byte 236 + 0 of the
second LOAD header, the last one covering it. -/
theorem c1_loaded_buffer_contents_witness :
    loadedA.mem.length = memA.length ∧ loadedA.mem.getD 4 0 = 0 ∧
    loadedA.mem.getD 2 0 = rawA.getD 236 0 :=
  have h := c1_loaded_buffer_contents rawA 0 elfA memA 0 loadedA parse_rawA load_rawA
  ⟨h.1, (h.2 4 (by decide)).1 (by decide), by
    have h2 := (h.2 2 (by decide)).2 (elfA.program_headers.getD 1 default) (by decide)
    simpa using h2⟩

/-- Counterexample to C1 as stated: in image A the first LOAD header
(`p_vaddr = 0`, `p_offset = 232`, `p_filesz = 4`) does not satisfy
`mem[p_vaddr + 2] = raw[p_offset + 2]` after a successful load, because the
second LOAD header also covers byte 2 and is copied later. -/
theorem c1_counterexample :
    try_parse_elf rawA 0 = .ok elfA ∧
    try_load_elf elfA memA 0 = .ok loadedA ∧
    (elfA.program_headers.getD 0 default).p_type = 1 ∧
    2 < (elfA.program_headers.getD 0 default).p_filesz ∧
    loadedA.mem.getD ((elfA.program_headers.getD 0 default).p_vaddr + 2) 0
      ≠ rawA.getD ((elfA.program_headers.getD 0 default).p_offset + 2) 0 :=
  ⟨parse_rawA, load_rawA, rfl, by decide, by decide⟩

end ElfLoader

namespace ElfLoader

/-- C4 (amended): for every successful parse, `mem_len` and `mem_align` fit
in 32 bits — `mem_len ≤ 2^32 - 1` and `1 ≤ mem_align ≤ 2^32 - 1` — but
neither is required to be a power of two, and `mem_len` may be zero. -/
theorem c4_mem_bounds :
    ∀ (raw : Bytes) (addr : Nat) (elf : Elf),
      try_parse_elf raw addr = .ok elf →
      elf.mem_len ≤ 2 ^ 32 - 1 ∧ 1 ≤ elf.mem_align ∧ elf.mem_align ≤ 2 ^ 32 - 1 :=
  fun _ _ _ h => parse_ok_bounds h

/-- Witness for C4 at image A. -/
theorem c4_mem_bounds_witness :
    elfA.mem_len ≤ 2 ^ 32 - 1 ∧ 1 ≤ elfA.mem_align ∧ elfA.mem_align ≤ 2 ^ 32 - 1 :=
  c4_mem_bounds rawA 0 elfA parse_rawA

/-- Counterexample to C4 as stated: image C parses successfully with
`mem_len = 0`, which is smaller than 1 and hence not a power of two at
least 1. -/
theorem c4_counterexample :
    try_parse_elf rawC 0 = .ok elfC ∧ elfC.mem_len = 0 ∧ elfC.mem_len < 1 :=
  ⟨parse_rawC, rfl, by decide⟩

/-- C5 (amended): once the file-header checks pass and `e_phentsize` is 56,
parse fails with `ProgramHeaderOverflow` exactly when
`e_phoff + e_phnum * 56 ≥ len(raw)` — the boundary case
`e_phoff + e_phnum * 56 = len(raw)` is rejected, not accepted.  A 64-byte
image with a valid header, zero program headers and zero entry is accepted
when its `e_phoff` makes that sum smaller than 64 (image C, `e_phoff = 0`). -/
theorem c5_ph_overflow :
    (∀ (raw : Bytes) (addr : Nat) (hdr : ElfFileHeader),
      try_load_header raw addr = .ok hdr → hdr.e_phentsize = 56 →
      (try_parse_elf raw addr = .error .ProgramHeaderOverflow ↔
        raw.length ≤ 56 * hdr.e_phnum + hdr.e_phoff)) ∧
    try_parse_elf rawC 0 = .ok elfC := by
  refine ⟨?_, parse_rawC⟩
  intro raw addr hdr hhdr hps
  obtain ⟨rfl, -, h32, -⟩ := try_load_header_ok hhdr
  unfold try_parse_elf
  rw [hhdr]
  simp only [try_load_program_headers]
  rw [if_neg fun hn => hn hps]
  by_cases hc : raw.length ≤ 56 * (ElfFileHeader.fromBytes raw).e_phnum
      + (ElfFileHeader.fromBytes raw).e_phoff
  · rw [if_pos (Or.inr (Or.inr hc))]
    simp [hc]
  · rw [if_neg (by omega)]
    simp only [iff_iff_implies_and_implies]
    refine ⟨?_, fun h => absurd h hc⟩
    intro h
    exfalso
    split at h
    · rename_i heq
      cases h
      split at heq
      · cases heq
      · split at heq
        · rename_i hchk
          cases heq
          exact check_go_ne_overflow _ _ _ _ hchk
        · cases heq
    · cases h

/-- Witness for C5: image D (`e_phoff = 64`, no program headers, 64 bytes)
hits the boundary and is rejected; image C is accepted. -/
theorem c5_ph_overflow_witness :
    try_parse_elf rawD 0 = .error .ProgramHeaderOverflow ∧
    try_parse_elf rawC 0 = .ok elfC :=
  ⟨(c5_ph_overflow.1 rawD 0 hdrD header_rawD (by decide)).mpr (by decide),
   c5_ph_overflow.2⟩

/-- Counterexample to C5 as stated: image D satisfies
`e_phoff + e_phnum * 56 = 64 = len(raw)`, so the claimed strict-inequality
condition does not hold, yet parse fails with `ProgramHeaderOverflow`. -/
theorem c5_counterexample :
    try_load_header rawD 0 = .ok hdrD ∧ hdrD.e_phentsize = 56 ∧
    ¬ hdrD.e_phoff + hdrD.e_phnum * 56 > rawD.length ∧
    try_parse_elf rawD 0 = .error .ProgramHeaderOverflow :=
  ⟨header_rawD, by decide, by decide, rfl⟩

end ElfLoader

namespace ElfLoader

/-- C6 (amended): the program-header scan fails with `BadPhRange` exactly
when, walking the headers of every type in table order, the first header
that fails any per-header check fails the file-range check: some header
(of any type, not only LOAD or DYNAMIC) has
`p_offset + p_filesz ≥ len(raw)` (or an overflowing sum) while all earlier
headers pass all checks.  A file range that ends exactly at `len(raw)` is
rejected, not accepted. -/
theorem c6_bad_ph_range :
    ∀ (hdrs : List ElfProgramHeader) (rawLen ent : Nat),
      check_ph_ranges hdrs rawLen ent = .error .BadPhRange ↔
        ∃ pre ph rest, hdrs = pre ++ ph :: rest
          ∧ (∀ q ∈ pre, perHeaderOk q rawLen)
          ∧ ph_range_bad ph rawLen :=
  fun hdrs _ _ => check_go_bad_ph_range hdrs 0 1 false

/-- Witness for C6: a single `PT_NULL` header whose file range ends exactly
at the buffer end makes the scan fail with `BadPhRange`. -/
theorem c6_bad_ph_range_witness :
    check_ph_ranges [phE] 121 0 = .error .BadPhRange :=
  (c6_bad_ph_range [phE] 121 0).mpr ⟨[], phE, [], rfl, by simp, by decide⟩

/-- Counterexample to C6 as stated: image E's only header has type
`PT_NULL` (neither LOAD nor DYNAMIC) and `p_offset + p_filesz = len(raw)`
(not `>`), yet parse fails with `BadPhRange`. -/
theorem c6_counterexample :
    phE.p_type = 0 ∧ phE.p_type ≠ 1 ∧ phE.p_type ≠ 2 ∧
    phE.p_offset + phE.p_filesz = rawE.length ∧
    try_parse_elf rawE 0 = .error .BadPhRange :=
  ⟨rfl, by decide, by decide, by decide, parse_rawE⟩

/-- A LOAD header with the X flag whose virtual range `[0, 4)` is used as a
concrete executable segment below. -/
def phF : ElfProgramHeader where
  p_type := 1
  p_flags := 1
  p_offset := 0
  p_vaddr := 0
  p_paddr := 0
  p_filesz := 4
  p_memsz := 4
  p_align := 1

/-- C7: a nonzero entry point must lie inside some executable LOAD header.
Part 1: every successful parse has entry zero or an executable LOAD header
with `p_vaddr ≤ entry < p_vaddr + p_memsz`.  Part 2 (deferral): whenever
all headers pass the per-header checks and any one executable LOAD header
contains the entry — regardless of position — the scan succeeds, so
multi-executable-segment images are accepted.  Part 3: with a nonzero
entry contained in no executable LOAD header (in particular an entry equal
to `p_vaddr + p_memsz` of every executable LOAD header), the scan fails
with `BadEntry`; with `ent = 0` part 2 shows the scan never fails this
way. -/
theorem c7_entry_check :
    (∀ (raw : Bytes) (addr : Nat) (elf : Elf),
      try_parse_elf raw addr = .ok elf →
      elf.entry = 0 ∨ ∃ ph ∈ elf.program_headers, entry_in_exe_at ph elf.entry) ∧
    (∀ (hdrs : List ElfProgramHeader) (rawLen ent : Nat),
      (∀ ph ∈ hdrs, perHeaderOk ph rawLen) →
      (ent = 0 ∨ ∃ ph ∈ hdrs, entry_in_exe_at ph ent) →
      ∃ res, check_ph_ranges hdrs rawLen ent = .ok res) ∧
    (∀ (hdrs : List ElfProgramHeader) (rawLen ent : Nat),
      (∀ ph ∈ hdrs, perHeaderOk ph rawLen) →
      ent ≠ 0 →
      (∀ ph ∈ hdrs, ¬ entry_in_exe_at ph ent) →
      check_ph_ranges hdrs rawLen ent = .error .BadEntry) := by
  refine ⟨?_, ?_, ?_⟩
  · intro raw addr elf hparse
    obtain ⟨-, -, hchk, hent, -, -⟩ := try_parse_elf_ok hparse
    by_cases h0 : (ElfFileHeader.fromBytes raw).e_entry = 0
    · left
      rw [hent, h0]
      rfl
    · right
      obtain ⟨ph, hph, hc⟩ := check_go_entry_witness _ _ _ _ hchk h0
      have hperh := (parse_ok_headers hparse ph hph).1
      have hlt : (ElfFileHeader.fromBytes raw).e_entry < 2 ^ 32 := by
        obtain ⟨-, hv, -, -⟩ := hperh
        unfold ph_vmem_bad at hv
        have := hc.2.2.2
        omega
      refine ⟨ph, hph, hc.1, hc.2.1, ?_, ?_⟩
      · rw [hent, Nat.mod_eq_of_lt hlt]
        exact hc.2.2.1
      · rw [hent, Nat.mod_eq_of_lt hlt]
        exact hc.2.2.2
  · intro hdrs rawLen ent hok hw
    exact check_go_entry_accept hdrs 0 1 false hok
      (hw.elim Or.inl fun w => Or.inr (Or.inr w))
  · intro hdrs rawLen ent hok hent hno
    exact check_go_entry_reject hdrs 0 1 hok hent hno

/-- Witness for C7: image A (entry zero) for part 1; a single executable
LOAD header containing entry 2 for part 2; the empty header list with
entry 5 for part 3. -/
theorem c7_entry_check_witness :
    (elfA.entry = 0 ∨ ∃ ph ∈ elfA.program_headers, entry_in_exe_at ph elfA.entry) ∧
    (∃ res, check_ph_ranges [phF] 100 2 = .ok res) ∧
    check_ph_ranges [] 100 5 = .error .BadEntry :=
  ⟨c7_entry_check.1 rawA 0 elfA parse_rawA,
   c7_entry_check.2.1 [phF] 100 2 (by decide)
     (Or.inr ⟨phF, List.mem_cons_self _ _, by decide⟩),
   c7_entry_check.2.2 [] 100 5 (by simp) (by decide) (by simp)⟩

end ElfLoader

namespace ElfLoader

/-- Number of DYNAMIC headers among the filtered program headers. -/
def countDyn (phs : List ProgramHeader) : Nat :=
  phs.countP fun ph => decide (ph.kind = SegmentKind.Dynamic)

/-- Number of filtered headers the loader pushes onto the protect list
(LOAD, DYNAMIC and RELRO kinds). -/
def countPush (phs : List ProgramHeader) : Nat :=
  phs.countP fun ph => decide (ph.kind = SegmentKind.Load)
    || decide (ph.kind = SegmentKind.Dynamic)
    || decide (ph.kind = SegmentKind.Relro)

theorem load_go_succeeds :
    ∀ (phs : List ProgramHeader) (mem : Bytes) (segs : List Segment)
      (dyns : Option Slice32),
      segs.length ≤ 8 →
      ((∃ out, load_go phs mem segs dyns = .ok out) ↔
        (countDyn phs + (if dyns.isSome then 1 else 0) = 1
          ∧ segs.length + countPush phs ≤ 8))
  | [], mem, segs, dyns => by
    intro hsegs
    simp only [load_go, countDyn, countPush, List.countP_nil]
    cases dyns with
    | none => simp
    | some d => simpa using hsegs
  | ph :: rest, mem, segs, dyns => by
    intro hsegs
    cases hk : ph.kind with
    | Load =>
      simp only [load_go, hk, SegmentStack.try_push]
      by_cases hcap : segs.length ≥ 8
      · rw [if_pos hcap]
        constructor
        · rintro ⟨out, hout⟩
          cases hout
        · rintro ⟨-, h2⟩
          exfalso
          simp [countPush, List.countP_cons, hk] at h2
          omega
      · rw [if_neg hcap]
        change (∃ out, load_go rest (load_segment ph mem)
          (segs ++ [{ range := ph.load_range, protect := ph.protection }]) dyns
          = Except.ok out) ↔ _
        refine Iff.trans (load_go_succeeds rest _ _ _ (by simp; omega)) ?_
        simp [countDyn, countPush, List.countP_cons, hk]
        omega
    | Dynamic =>
      cases dyns with
      | some d =>
        simp only [load_go, hk]
        constructor
        · rintro ⟨out, hout⟩
          cases hout
        · rintro ⟨h1, -⟩
          exfalso
          simp [countDyn, List.countP_cons, hk] at h1
      | none =>
        simp only [load_go, hk, SegmentStack.try_push]
        by_cases hcap : segs.length ≥ 8
        · rw [if_pos hcap]
          constructor
          · rintro ⟨out, hout⟩
            cases hout
          · rintro ⟨-, h2⟩
            exfalso
            simp [countPush, List.countP_cons, hk] at h2
            omega
        · rw [if_neg hcap]
          change (∃ out, load_go rest (load_segment ph mem)
            (segs ++ [{ range := ph.load_range, protect := ph.protection }])
            (some ph.load_range.convert_to_dyn) = Except.ok out) ↔ _
          refine Iff.trans (load_go_succeeds rest _ _ _ (by simp; omega)) ?_
          simp [countDyn, countPush, List.countP_cons, hk]
          omega
    | Relro =>
      simp only [load_go, hk, SegmentStack.try_push]
      by_cases hcap : segs.length ≥ 8
      · rw [if_pos hcap]
        constructor
        · rintro ⟨out, hout⟩
          cases hout
        · rintro ⟨-, h2⟩
          exfalso
          simp [countPush, List.countP_cons, hk] at h2
          omega
      · rw [if_neg hcap]
        change (∃ out, load_go rest mem
          (segs ++ [{ range := ph.load_range, protect := ph.protection }]) dyns
          = Except.ok out) ↔ _
        refine Iff.trans (load_go_succeeds rest _ _ _ (by simp; omega)) ?_
        simp [countDyn, countPush, List.countP_cons, hk]
        omega
    | Unsupported =>
      simp only [load_go, hk]
      refine Iff.trans (load_go_succeeds rest mem segs dyns hsegs) ?_
      simp [countDyn, countPush, List.countP_cons, hk]

end ElfLoader

namespace ElfLoader

/-- C3 (amended): a too-small buffer yields `BadBufferSize`; a big-enough
but misaligned buffer yields `BadBufferAlignment`; with an adequate buffer,
load succeeds if and only if the filtered program headers contain exactly
one DYNAMIC header and at most 8 protect-list (LOAD/DYNAMIC/RELRO)
headers — otherwise load fails with `NoDynamicSegments`,
`MultipleDynamicSegments` or `TooManySegments` even on a perfect buffer. -/
theorem c3_load_succeeds :
    ∀ (elf : Elf) (mem : Bytes) (memAddr : Nat),
      (mem.length < elf.mem_len →
        try_load_elf elf mem memAddr = .error .BadBufferSize) ∧
      (elf.mem_len ≤ mem.length → memAddr % elf.mem_align ≠ 0 →
        try_load_elf elf mem memAddr = .error .BadBufferAlignment) ∧
      (elf.mem_len ≤ mem.length → memAddr % elf.mem_align = 0 →
        ((∃ loaded, try_load_elf elf mem memAddr = .ok loaded) ↔
          countDyn elf.filteredHeaders = 1 ∧ countPush elf.filteredHeaders ≤ 8)) := by
  intro elf mem memAddr
  refine ⟨?_, ?_, ?_⟩
  · intro hsz
    unfold try_load_elf
    rw [if_pos hsz]
  · intro hsz hal
    unfold try_load_elf
    rw [if_neg (by omega), if_pos hal]
  · intro hsz hal
    unfold try_load_elf
    rw [if_neg (by omega), if_neg (by omega)]
    have h := load_go_succeeds elf.filteredHeaders
      (List.replicate mem.length 0) [] none (by simp)
    simp only [Option.isSome_none, Bool.false_eq_true, if_false,
      List.length_nil, Nat.add_zero, Nat.zero_add] at h
    constructor
    · rintro ⟨loaded, hload⟩
      have hex : ∃ out, load_go elf.filteredHeaders
          (List.replicate mem.length 0) [] none = .ok out := by
        rcases hgo : load_go elf.filteredHeaders
            (List.replicate mem.length 0) [] none with e | out
        · rw [hgo] at hload
          cases hload
        · exact ⟨out, rfl⟩
      have := h.mp hex
      constructor
      · omega
      · omega
    · intro hcnt
      obtain ⟨out, hgo⟩ := h.mpr (by omega)
      rw [hgo]
      exact ⟨_, rfl⟩

/-- Witness for C3: image A loads successfully into its 32-byte buffer, and
fails with `BadBufferSize` on an empty buffer. -/
theorem c3_load_succeeds_witness :
    (∃ loaded, try_load_elf elfA memA 0 = .ok loaded) ∧
    try_load_elf elfA [] 0 = .error .BadBufferSize :=
  ⟨((c3_load_succeeds elfA memA 0).2.2 (by decide) (by decide)).mpr (by decide),
   (c3_load_succeeds elfA [] 0).1 (by decide)⟩

/-- Counterexample to C3 as stated: image C parses successfully, the empty
buffer satisfies both the size and the alignment requirement
(`mem_len = 0`, `mem_align = 1`), yet load fails with
`NoDynamicSegments`. -/
theorem c3_counterexample :
    try_parse_elf rawC 0 = .ok elfC ∧ elfC.mem_len ≤ ([] : Bytes).length ∧
    0 % elfC.mem_align = 0 ∧
    try_load_elf elfC [] 0 = .error .NoDynamicSegments :=
  ⟨parse_rawC, by decide, by decide, rfl⟩

end ElfLoader

namespace ElfLoader

/-- C2: evaluation at the failing input.  Image B parses and loads into an
80-byte buffer whose RELA table holds one `R_X86_64_RELATIVE` entry with
`r_offset = 79`.  The entry passes the only bounds check the code performs
(`r_offset < mem.len()`), relocation reports success, yet the 8-byte
unaligned store at offset 79 ends at 87, past the end of the buffer: in
the source this writes 7 bytes beyond `mem`.  (The model's `writeBytes`
discards the out-of-range bytes; the last conjunct shows the store was
performed and reloc returned `Ok`.) -/
theorem c2_relative_store_oob :
    try_parse_elf rawB 0 = .ok elfB ∧
    try_load_elf elfB memB 0 = .ok loadedB ∧
    loadedB.mem.length = 80 ∧
    readLE loadedB.mem 48 8 = 79 ∧
    r_type (readLE loadedB.mem 56 8) = 8 ∧
    loadedB.mem.length < 79 + 8 ∧
    (try_reloc_elf loadedB 0 8 none).2 = .ok (writeBytes loadedB.mem 79 (natToLE 8 9)) :=
  ⟨parse_rawB, load_rawB, rfl, rfl, rfl, by decide, rfl⟩

end ElfLoader

namespace ElfLoader

/-- Whether the modelled callback accepts the invocation a protect-list
entry produces. -/
def callOk (f : SegmentProtection → Nat → Nat → Bool) (seg : Segment) : Bool :=
  f seg.toCall.1 seg.toCall.2.1 seg.toCall.2.2

theorem protect_go_all_ok {f : SegmentProtection → Nat → Nat → Bool} :
    ∀ segs : List Segment, (∀ s ∈ segs, callOk f s = true) →
      protect_go f segs = (segs.map Segment.toCall, .ok ())
  | [] => by
    intro _
    rfl
  | seg :: rest => by
    intro h
    simp only [protect_go]
    have hc : f seg.toCall.1 seg.toCall.2.1 seg.toCall.2.2 = true :=
      h seg (List.mem_cons_self _ _)
    rw [if_pos hc]
    rw [protect_go_all_ok rest fun s hs => h s (List.mem_cons_of_mem _ hs)]
    rfl

theorem protect_go_first_fail {f : SegmentProtection → Nat → Nat → Bool} :
    ∀ (pre : List Segment) (bad : Segment) (post : List Segment),
      (∀ s ∈ pre, callOk f s = true) → callOk f bad = false →
      protect_go f (pre ++ bad :: post)
        = (pre.map Segment.toCall ++ [bad.toCall], .error .MemProtectFailed)
  | [], bad, post => by
    intro _ hbad
    rw [List.nil_append]
    simp only [protect_go]
    rw [if_neg]
    · rfl
    · rw [show (f bad.toCall.1 bad.toCall.2.1 bad.toCall.2.2 = true)
          = (callOk f bad = true) from rfl, hbad]
      simp
  | p :: pre, bad, post => by
    intro hpre hbad
    rw [List.cons_append]
    simp only [protect_go]
    have hc : f p.toCall.1 p.toCall.2.1 p.toCall.2.2 = true :=
      hpre p (List.mem_cons_self _ _)
    rw [if_pos hc]
    rw [protect_go_first_fail pre bad post
      (fun s hs => hpre s (List.mem_cons_of_mem _ hs)) hbad]
    rfl

/-- C8: when relocation succeeds and a protection callback is supplied, the
callback is invoked first once over the whole `[0, mem.len())` range with
read-only protection, then once per protect-list entry in insertion order
with that entry's byte range and protection; the first refused invocation
makes `reloc` return `MemProtectFailed` with no further invocations. -/
theorem c8_protect_callbacks :
    ∀ (elf : LoadedElf) (memAddr base off : Nat) (mem2 : Bytes)
      (f : SegmentProtection → Nat → Nat → Bool),
      base_to_offset elf.mem_align base = .ok off →
      relocate_segments elf memAddr off = .ok mem2 →
      ((f .RO 0 elf.mem.length = false →
        try_reloc_elf elf memAddr base (some f)
          = ([(.RO, 0, elf.mem.length)], .error .MemProtectFailed)) ∧
      (f .RO 0 elf.mem.length = true →
        (∀ s ∈ elf.protect, callOk f s = true) →
        try_reloc_elf elf memAddr base (some f)
          = ((.RO, 0, elf.mem.length) :: elf.protect.map Segment.toCall, .ok mem2)) ∧
      (∀ pre bad post, elf.protect = pre ++ bad :: post →
        f .RO 0 elf.mem.length = true →
        (∀ s ∈ pre, callOk f s = true) → callOk f bad = false →
        try_reloc_elf elf memAddr base (some f)
          = ((.RO, 0, elf.mem.length)
              :: (pre.map Segment.toCall ++ [bad.toCall]),
            .error .MemProtectFailed))) := by
  intro elf memAddr base off mem2 f hbase hrel
  unfold try_reloc_elf
  simp only [hbase, hrel]
  refine ⟨?_, ?_, ?_⟩
  · intro hf
    simp only [protect_segments]
    rw [if_neg (by rw [hf]; simp)]
  · intro hf hall
    simp only [protect_segments]
    rw [if_pos hf, protect_go_all_ok elf.protect hall]
  · intro pre bad post hsplit hf hpre hbad
    simp only [protect_segments]
    rw [if_pos hf, hsplit, protect_go_first_fail pre bad post hpre hbad]

/-- A hand-built loaded image used to instantiate C8: 32 zero bytes, one
null dynamic entry at byte 16, and two protect-list records. -/
def loadedW : LoadedElf where
  mem := List.replicate 32 0
  dyns := { start := 16, len := 1 }
  mem_align := 1
  entry := 0
  protect :=
    [{ range := { start := 0, len := 4 }, protect := .RO },
     { range := { start := 4, len := 4 }, protect := .RW }]

/-- Witness for C8: an always-accepting callback sees the initial read-only
sweep followed by both protect-list entries in order; an always-refusing
callback sees only the initial sweep; a callback refusing the second entry
sees the sweep, the first entry and the refused second entry, and reloc
fails with `MemProtectFailed`. -/
theorem c8_protect_callbacks_witness :
    try_reloc_elf loadedW 0 8 (some fun _ _ _ => true)
      = ([(.RO, 0, 32), (.RO, 0, 4), (.RW, 4, 8)], .ok (List.replicate 32 0)) ∧
    try_reloc_elf loadedW 0 8 (some fun _ _ _ => false)
      = ([(.RO, 0, 32)], .error .MemProtectFailed) ∧
    try_reloc_elf loadedW 0 8 (some fun _ s _ => s == 0)
      = ([(.RO, 0, 32), (.RO, 0, 4), (.RW, 4, 8)], .error .MemProtectFailed) :=
  ⟨(c8_protect_callbacks loadedW 0 8 8 (List.replicate 32 0) _ rfl rfl).2.1
      rfl (by decide),
   (c8_protect_callbacks loadedW 0 8 8 (List.replicate 32 0) _ rfl rfl).1 rfl,
   (c8_protect_callbacks loadedW 0 8 8 (List.replicate 32 0) _ rfl rfl).2.2
      [{ range := { start := 0, len := 4 }, protect := .RO }]
      { range := { start := 4, len := 4 }, protect := .RW } [] rfl rfl
      (by decide) rfl⟩

end ElfLoader

namespace ElfLoader

theorem slice_rel_ok (mem : Bytes) (memAddr off len esz : Nat) (hoff : off ≠ 0)
    (hbig : off + len < 2 ^ 64) (hlen : off + len < mem.length)
    (hal : (memAddr + off) % 8 = 0) :
    slice_rel mem memAddr off len esz
      = .ok ((List.range (len / esz)).map fun i => off + esz * i) := by
  unfold slice_rel
  rw [if_neg hoff, if_neg (by omega), if_neg (by omega)]

/-- C9: a REL or RELA table size that is not a multiple of the element size
(16 or 24) is not an error: the dynamic walk passes `DT_RELSZ`/`DT_RELASZ`
through unchecked, the table is sliced to `size / element_size` entries
(integer division), and the trailing partial-entry bytes are ignored — a
table of size `len` produces exactly the entries of one of size
`element_size * (len / element_size)`. -/
theorem c9_trailing_bytes_ignored :
    ∀ (mem : Bytes) (memAddr off len : Nat),
      off ≠ 0 → off + len < 2 ^ 64 → off + len < mem.length →
      (memAddr + off) % 8 = 0 →
      (find_rels_and_relas mem memAddr [⟨17, off⟩, ⟨18, len⟩]
          = .ok ((List.range (len / 16)).map fun i => off + 16 * i, []) ∧
        ((List.range (len / 16)).map fun i => off + 16 * i).length = len / 16 ∧
        find_rels_and_relas mem memAddr [⟨7, off⟩, ⟨8, len⟩]
          = .ok ([], (List.range (len / 24)).map fun i => off + 24 * i) ∧
        ((List.range (len / 24)).map fun i => off + 24 * i).length = len / 24 ∧
        slice_rel mem memAddr off len 16 = slice_rel mem memAddr off (16 * (len / 16)) 16 ∧
        slice_rel mem memAddr off len 24 = slice_rel mem memAddr off (24 * (len / 24)) 24) := by
  intro mem memAddr off len hoff hbig hlen hal
  have h16 : 16 * (len / 16) ≤ len := by
    have := Nat.div_mul_le_self len 16
    omega
  have h24 : 24 * (len / 24) ≤ len := by
    have := Nat.div_mul_le_self len 24
    omega
  refine ⟨?_, by simp, ?_, by simp, ?_, ?_⟩
  · simp only [find_rels_and_relas,
      show find_rels_and_relas_go [⟨17, off⟩, ⟨18, len⟩] 0 0 0 0
        = .ok (off, len, 0, 0) from rfl,
      slice_rel_ok mem memAddr off len 16 hoff hbig hlen hal,
      show slice_rel mem memAddr 0 0 24 = .ok [] from rfl]
  · simp only [find_rels_and_relas,
      show find_rels_and_relas_go [⟨7, off⟩, ⟨8, len⟩] 0 0 0 0
        = .ok (0, 0, off, len) from rfl,
      slice_rel_ok mem memAddr off len 24 hoff hbig hlen hal,
      show slice_rel mem memAddr 0 0 16 = .ok [] from rfl]
  · rw [slice_rel_ok mem memAddr off len 16 hoff hbig hlen hal,
      slice_rel_ok mem memAddr off (16 * (len / 16)) 16 hoff (by omega) (by omega) hal,
      Nat.mul_div_cancel_left _ (by norm_num : (0:Nat) < 16)]
  · rw [slice_rel_ok mem memAddr off len 24 hoff hbig hlen hal,
      slice_rel_ok mem memAddr off (24 * (len / 24)) 24 hoff (by omega) (by omega) hal,
      Nat.mul_div_cancel_left _ (by norm_num : (0:Nat) < 24)]

/-- Witness for C9: an 80-byte buffer with a RELA table at offset 48 of
size 25 — one byte more than one entry — yields exactly one entry and no
error, the same as size 24. -/
theorem c9_trailing_bytes_ignored_witness :
    find_rels_and_relas (List.replicate 80 0) 0 [⟨7, 48⟩, ⟨8, 25⟩]
      = .ok ([], [48]) ∧
    slice_rel (List.replicate 80 0) 0 48 25 24
      = slice_rel (List.replicate 80 0) 0 48 24 24 :=
  have h := c9_trailing_bytes_ignored (List.replicate 80 0) 0 48 25
    (by decide) (by decide) (by decide) (by decide)
  ⟨h.2.2.1, h.2.2.2.2.2⟩

end ElfLoader

namespace ElfLoader

/-- C10: a program header with none of the R, W or X bits set
(`flags % 8 = 0`, the untyped `_` arm of `from_flags`) is protected
read-execute, the same protection as the W-and-X combinations 3 (`W|X`)
and 7 (`R|W|X`); and no flag combination can make load reject a segment —
pushing onto the protect list succeeds or fails independently of the
header contents (only the list length matters), and replacing every
header's protection arbitrarily never changes whether load's header loop
succeeds. -/
theorem c10_flags_to_protection :
    (∀ flags : Nat, flags % 8 = 0 → SegmentProtection.from_flags flags = .RX) ∧
    SegmentProtection.from_flags 3 = .RX ∧
    SegmentProtection.from_flags 7 = .RX ∧
    (∀ (segs : List Segment) (ph ph2 : ProgramHeader),
      (SegmentStack.try_push segs ph).isOk = (SegmentStack.try_push segs ph2).isOk) ∧
    (∀ (g : ProgramHeader → SegmentProtection) (phs : List ProgramHeader)
      (mem : Bytes) (segs : List Segment) (dyns : Option Slice32),
      segs.length ≤ 8 →
      ((∃ out, load_go (phs.map fun ph => { ph with protection := g ph }) mem segs dyns
          = .ok out)
        ↔ ∃ out, load_go phs mem segs dyns = .ok out)) := by
  refine ⟨?_, rfl, rfl, ?_, ?_⟩
  · intro flags h
    unfold SegmentProtection.from_flags
    rw [h]
  · intro segs ph ph2
    unfold SegmentStack.try_push
    split <;> rfl
  · intro g phs mem segs dyns hsegs
    rw [load_go_succeeds _ mem segs dyns hsegs, load_go_succeeds _ mem segs dyns hsegs]
    have h1 : countDyn (phs.map fun ph => { ph with protection := g ph })
        = countDyn phs := by
      unfold countDyn
      rw [List.countP_map]
      rfl
    have h2 : countPush (phs.map fun ph => { ph with protection := g ph })
        = countPush phs := by
      unfold countPush
      rw [List.countP_map]
      rfl
    rw [h1, h2]

/-- A concrete filtered LOAD header with no flag bits set
(`from_flags 0 = RX`). -/
def phW : ProgramHeader where
  kind := .Load
  protection := SegmentProtection.from_flags 0
  load_range := { start := 0, len := 0 }
  copy_from := []

/-- Witness for C10 at concrete flag values and a concrete push. -/
theorem c10_flags_to_protection_witness :
    SegmentProtection.from_flags 0 = .RX ∧
    (SegmentStack.try_push [] phW).isOk
      = (SegmentStack.try_push [] { phW with protection := .RW }).isOk ∧
    ((∃ out, load_go ([phW].map fun ph => { ph with protection := .RO }) [] [] none
        = .ok out)
      ↔ ∃ out, load_go [phW] [] [] none = .ok out) :=
  ⟨c10_flags_to_protection.1 0 rfl,
   c10_flags_to_protection.2.2.2.1 [] phW { phW with protection := .RW },
   c10_flags_to_protection.2.2.2.2 (fun _ => .RO) [phW] [] [] none (by decide)⟩

end ElfLoader
